import Mathlib

/-!
Verification of `shrike`'s compliant exception sanitization and
category-aware logging gate, as implemented in
`shrike/confidential_logging/exceptions.py` and
`shrike/compliant_logging/logging.py`.

Python exception objects are modelled as nodes of a mutable heap
(`Heap`), indexed by their `id()` (a natural number).  Attribute values
are modelled by the inductive `PyVal`; attribute reads and writes can
fail, as they can in Python (`AttrRead`, `Attr.writeErr`).  The
recursive sanitizer `scrub_exception` is translated with an explicit
fuel parameter; `none` means the fuel ran out, and the termination
claim is proved as a fuel-sufficiency theorem.  An exception escaping
the sanitizer (an uncaught `raise` during attribute processing) is an
`Except.error`.
-/

namespace Shrike

/-- The `PREFIX` constant of `exceptions.py` (renamed, since `prefix` and
names ending in it are unavailable as Lean identifiers). -/
def PFX_DEFAULT : String := "SystemLog:"

/-- The `SCRUB_MESSAGE` constant of `exceptions.py`. -/
def SCRUB_MESSAGE : String := "**Exception message scrubbed**"

/-- `default_allow_list` of `exceptions.py`: the `__name__`s of the nine
`Public*` exception classes. -/
def default_allow_list : List String :=
  ["PublicValueError", "PublicRuntimeError", "PublicArgumentError",
   "PublicKeyError", "PublicTypeError", "PublicIndexError",
   "PublicNotImplementedError", "PublicFileNotFoundError", "PublicIOError"]

/-- Kind of a non-string Python iterable; `type(o)(map(inner, o))` rebuilds
the same kind. -/
inductive CollKind where
  | pylist
  | pytuple
  | pyset
  deriving DecidableEq, Repr

/-- Model of a Python attribute value, classified the way
`_attribute_transformer` classifies values: a string, a non-string
iterable of values, a callable, `None`, or an opaque non-iterable
non-callable primitive (an `int` such as an errno, a float, ...). -/
inductive PyVal where
  | vstr (s : String)
  | vcoll (k : CollKind) (xs : List PyVal)
  | vfun (t : Nat)
  | vnone
  | vprim (t : Int)
  deriving Repr

mutual

/-- Lean translation of the `inner` closure produced by
`_attribute_transformer(prefix, scrub_message, keep)`:
strings become `prefix + original` (keep) or `prefix + scrub_message`
(scrub); non-string iterables are rebuilt with the transform applied
element-wise; callables are untouched; `None` stays `None` (`rv = None`
either way); any other value is untouched when keeping, else replaced
by `None`. -/
def _attribute_transformer (pfx scrub_message : String) (keep : Bool) : PyVal → PyVal
  | .vstr s => if keep then .vstr (pfx ++ s) else .vstr (pfx ++ scrub_message)
  | .vcoll k xs => .vcoll k (_attribute_transformer_list pfx scrub_message keep xs)
  | .vfun t => .vfun t
  | .vnone => .vnone
  | .vprim t => if keep then .vprim t else .vnone

/-- Element-wise application of `_attribute_transformer`, the
`map(inner, o)` of the source. -/
def _attribute_transformer_list (pfx scrub_message : String) (keep : Bool) :
    List PyVal → List PyVal
  | [] => []
  | x :: xs =>
    _attribute_transformer pfx scrub_message keep x ::
      _attribute_transformer_list pfx scrub_message keep xs

end

/-- Outcome of reading an attribute with `getattr`: a value, an
`AttributeError` (the case `dir` advertises an attribute the object
cannot produce), or an exception of some other type. -/
inductive AttrRead where
  | ok (v : PyVal)
  | attrError
  | raises (ty : String)
  deriving Repr

/-- One non-dunder attribute of an exception object: its name, what
reading it does, and whether writing it back fails (`some ty` models
`setattr` raising an exception of type `ty`, e.g. `"AttributeError"`
for a read-only property). -/
structure Attr where
  name : String
  read : AttrRead
  writeErr : Option String
  deriving Repr

/-- Model of a Python exception object: its type name, the non-dunder
attributes `dir` would enumerate (in `dir`'s sorted order), the
`__cause__` and `__context__` links (heap ids), the
`__suppress_context__` flag, the formatted stack-frame chunks its
`__traceback__` would render to (each chunk is the list of lines for
one frame), and what `bool(obj)` returns -- `True` by
`object.__bool__` unless the exception class overrides
`__bool__`/`__len__`. -/
structure ExcNode where
  ty : String
  attrs : List Attr
  cause : Option Nat
  context : Option Nat
  suppressContext : Bool
  frames : List (List String)
  truthy : Bool := true

/-- A heap of exception objects indexed by Python `id()`. -/
structure Heap where
  nodes : Nat → ExcNode

/-- Write one object (in-place mutation of the object with that id). -/
def Heap.set (h : Heap) (i : Nat) (n : ExcNode) : Heap :=
  ⟨Function.update h.nodes i n⟩

/-- Does `needle` occur as a prefix of `hay` (on character lists)? -/
def chars_is_sub_from : List Char → List Char → Bool
  | [], _ => true
  | _ :: _, [] => false
  | a :: as, b :: bs => a == b && chars_is_sub_from as bs

/-- Does `needle` occur as a contiguous sublist of `hay`? -/
def chars_contains : List Char → List Char → Bool
  | needle, [] => chars_is_sub_from needle []
  | needle, b :: bs => chars_is_sub_from needle (b :: bs) || chars_contains needle bs

/-- Substring test on strings. -/
def contains_sub (needle hay : String) : Bool :=
  chars_contains needle.toList hay.toList

/-- Model of `s.startswith(p)`. -/
def py_starts_with (s p : String) : Bool :=
  chars_is_sub_from p.toList s.toList

/-- Model of `re.search(expr, s, re.IGNORECASE)` for the patterns this
code is used with.  The built-in allow-list entries are plain
identifiers without regex metacharacters, for which `re.search` is
exactly a substring test; the model therefore uses case-insensitive
substring containment (both sides lower-cased character-wise). -/
def re_search_ci (expr s : String) : Bool :=
  chars_contains (expr.toList.map Char.toLower) (s.toList.map Char.toLower)

/-- Model of `str` on a single attribute value.  String values render as
themselves and `None` as `"None"`, exactly as in Python; the renderings
of the remaining kinds are approximations (their exact spelling is
never relied upon by any theorem below). -/
def str_of_val : PyVal → String
  | .vstr s => s
  | .vnone => "None"
  | .vprim t => toString t
  | .vfun t => "<callable " ++ toString t ++ ">"
  | .vcoll _ _ => "<collection>"

/-- First attribute of the given name whose read yields a value. -/
def lookup_attr_value (n : ExcNode) (name : String) : Option PyVal :=
  match n.attrs.find? (fun a => a.name == name) with
  | some a =>
    match a.read with
    | .ok v => some v
    | _ => none
  | none => none

/-- Model of `str(exception)` (`BaseException.__str__`, which is what
`TracebackException` stores as `_str`): the empty string when `args` is
empty or absent, the sole argument rendered by `str` when `args` has
exactly one element, and an approximate tuple rendering otherwise. -/
def str_of_exc (n : ExcNode) : String :=
  match lookup_attr_value n "args" with
  | some (.vcoll .pytuple []) => ""
  | some (.vcoll .pytuple [v]) => str_of_val v
  | some (.vcoll .pytuple vs) =>
    "(" ++ String.intercalate ", " (vs.map str_of_val) ++ ")"
  | _ => ""

/-- Lean translation of `is_exception_allowed(exception, allow_list)`:
for each pattern of the caller-supplied list concatenated with
`default_allow_list`, test a case-insensitive search against the
rendered message (`_str`) and against the exception type name,
short-circuiting on the first match. -/
def is_exception_allowed (n : ExcNode) (allow_list : List String) : Bool :=
  (allow_list ++ default_allow_list).any fun expr =>
    re_search_ci expr (str_of_exc n) || re_search_ci expr n.ty

/-- An exception escaping the sanitizer itself: during attribute
processing, `getattr` raised something other than an `AttributeError`,
which `scrub_exception` does not catch. -/
inductive PyErr where
  | raised (ty : String)
  deriving Repr, DecidableEq

/-- Message of the generic scrub-failure exception raised when an
attribute cannot be written back, the f-string
`"{prefix} Obtained {type(e).__name__} when trying to scrub {attr} from {type(exception).__name__}"`. -/
def mk_scrub_failure_msg (pfx errTy attrName excTy : String) : String :=
  pfx ++ " Obtained " ++ errTy ++ " when trying to scrub " ++ attrName ++
    " from " ++ excTy

/-- The fresh `PublicRuntimeError` that replaces an exception whose
attribute could not be overwritten.  Its `args` is the one safe message
string; `new_exception.__cause__ = exception.__cause__` and
`new_exception.__context__ = exception.__context__` copy the current
(already sanitized) links of the node being replaced; a newly
constructed exception has no traceback, and assigning `__cause__` sets
`__suppress_context__`. -/
def replacement_node (pfx errTy attrName : String) (n : ExcNode) : ExcNode :=
  { ty := "PublicRuntimeError"
    attrs := [{ name := "args"
                read := .ok (.vcoll .pytuple
                  [.vstr (mk_scrub_failure_msg pfx errTy attrName n.ty)])
                writeErr := none }]
    cause := n.cause
    context := n.context
    suppressContext := true
    frames := [] }

/-- Result of the attribute loop of `scrub_exception`: either every
attribute was processed (`done` carries the resulting attribute list),
or a write-back failed and the loop `break`s (`broke` carries the
attribute list at that point -- the already-processed ones transformed,
the failing one and the rest untouched -- plus the raised type and the
offending attribute name), or a read raised a non-`AttributeError` and
the loop (and the whole sanitizer) propagates it. -/
inductive LoopOut where
  | done (attrs : List Attr)
  | broke (attrs : List Attr) (errTy attrName : String)
  | raised (ty : String)
  deriving Repr

/-- Lean translation of the `for attr in dir(exception)` loop of
`scrub_exception`.  `dir` enumerates each attribute once, so the loop
is a single pass over the attribute list: dunder and empty names are
skipped (`if attr and not attr.startswith("__")`); a read raising
`AttributeError` is skipped with `continue`; a read raising anything
else is not caught; otherwise the transformed value is written back,
and on a write failure of any kind (`except BaseException`) the loop
stops. -/
def scrub_attr_list (pfx scrub_message : String) (keep : Bool) : List Attr → LoopOut
  | [] => .done []
  | a :: rest =>
    if a.name = "" ∨ py_starts_with a.name "__" then
      match scrub_attr_list pfx scrub_message keep rest with
      | .done as => .done (a :: as)
      | .broke as e nm => .broke (a :: as) e nm
      | .raised t => .raised t
    else
      match a.read with
      | .attrError =>
        match scrub_attr_list pfx scrub_message keep rest with
        | .done as => .done (a :: as)
        | .broke as e nm => .broke (a :: as) e nm
        | .raised t => .raised t
      | .raises t => .raised t
      | .ok v =>
        match a.writeErr with
        | none =>
          match scrub_attr_list pfx scrub_message keep rest with
          | .done as =>
            .done ({ a with read := .ok (_attribute_transformer pfx scrub_message keep v) } :: as)
          | .broke as e nm =>
            .broke ({ a with read := .ok (_attribute_transformer pfx scrub_message keep v) } :: as) e nm
          | .raised t => .raised t
        | some e => .broke (a :: rest) e a.name

/-- The `__cause__` step of `scrub_exception`:
`if exception.__cause__ is not None and id(exception.__cause__) not in
_seen: exception.__cause__ = scrub_exception(exception.__cause__, ...)`.
`recurse` is the recursive sanitizer call (one fuel level down);
assigning `__cause__` also sets `__suppress_context__`. -/
def scrub_cause_step
    (recurse : Heap → Option Nat → List Nat → Nat →
      Option (Except PyErr (Heap × Option Nat × List Nat × Nat)))
    (h : Heap) (root : Nat) (seen : List Nat) (fresh : Nat) :
    Option (Except PyErr (Heap × List Nat × Nat)) :=
  match (h.nodes root).cause with
  | some c =>
    if c ∈ seen then some (.ok (h, seen, fresh))
    else
      match recurse h (some c) seen fresh with
      | none => none
      | some (.error e) => some (.error e)
      | some (.ok (h1, r1, seen2, fresh1)) =>
        some (.ok (h1.set root
          { h1.nodes root with cause := r1, suppressContext := true },
          seen2, fresh1))
  | none => some (.ok (h, seen, fresh))

/-- The `__context__` step of `scrub_exception`, the same with
`exception.__context__ = scrub_exception(exception.__context__, ...)`
(plain attribute, no suppress-context side effect). -/
def scrub_context_step
    (recurse : Heap → Option Nat → List Nat → Nat →
      Option (Except PyErr (Heap × Option Nat × List Nat × Nat)))
    (h : Heap) (root : Nat) (seen : List Nat) (fresh : Nat) :
    Option (Except PyErr (Heap × List Nat × Nat)) :=
  match (h.nodes root).context with
  | some c =>
    if c ∈ seen then some (.ok (h, seen, fresh))
    else
      match recurse h (some c) seen fresh with
      | none => none
      | some (.error e) => some (.error e)
      | some (.ok (h1, r1, seen2, fresh1)) =>
        some (.ok (h1.set root { h1.nodes root with context := r1 },
          seen2, fresh1))
  | none => some (.ok (h, seen, fresh))

/-- The attribute phase of `scrub_exception`:
`keep = keep_message or is_exception_allowed(...)`, then the `for attr
in dir(exception)` loop.  On a clean pass the node keeps its identity
with scrubbed attributes; on a write failure the partially scrubbed
original stays in the heap and a fresh `PublicRuntimeError` replaces it
as the returned exception; an uncaught read error propagates. -/
def scrub_attrs_step (scrub_message pfx : String) (keep_message : Bool)
    (allow_list : List String) (h : Heap) (root : Nat) (seen : List Nat)
    (fresh : Nat) : Except PyErr (Heap × Option Nat × List Nat × Nat) :=
  let n2 := h.nodes root
  let keep := keep_message || is_exception_allowed n2 allow_list
  match scrub_attr_list pfx scrub_message keep n2.attrs with
  | .raised t => .error (.raised t)
  | .done as => .ok (h.set root { n2 with attrs := as }, some root, seen, fresh)
  | .broke as errTy attrName =>
    let leftover := { n2 with attrs := as }
    let repl := replacement_node pfx errTy attrName leftover
    .ok ((h.set root leftover).set fresh repl, some fresh, seen, fresh + 1)

/-- Lean translation of `scrub_exception(exception, scrub_message,
prefix, keep_message, allow_list, _seen)`, over the exception heap,
composed from the three steps above in source order.

The extra arguments are the fuel (the source recursion is guaranteed
to terminate by the `_seen` set; the fuel-sufficiency theorem below
proves exactly that, and `none` means the fuel ran out), the heap, and
a fresh-id counter used to allocate the replacement `PublicRuntimeError`
objects.  The result carries the mutated heap, the id of the returned
(possibly replaced) exception, the final `_seen` list (the source
mutates the set in place) and the next fresh id; `Except.error` is an
exception escaping the sanitizer (a read raising something other than
`AttributeError`). -/
def scrub_exception (scrub_message pfx : String) (keep_message : Bool)
    (allow_list : List String) :
    Nat → Heap → Option Nat → List Nat → Nat →
    Option (Except PyErr (Heap × Option Nat × List Nat × Nat))
  | 0, _, _, _, _ => none
  | _ + 1, h, none, seen, fresh =>
    -- `if not exception: return None`
    some (.ok (h, none, seen, fresh))
  | fuel + 1, h, some root, seen, fresh =>
    -- `_seen.add(id(exception))` happens before the recursion guards
    let seen1 := root :: seen
    match scrub_cause_step
        (scrub_exception scrub_message pfx keep_message allow_list fuel)
        h root seen1 fresh with
    | none => none
    | some (.error e) => some (.error e)
    | some (.ok (h1, seen2, fresh1)) =>
      match scrub_context_step
          (scrub_exception scrub_message pfx keep_message allow_list fuel)
          h1 root seen2 fresh1 with
      | none => none
      | some (.error e) => some (.error e)
      | some (.ok (h2, seen3, fresh2)) =>
        some (scrub_attrs_step scrub_message pfx keep_message allow_list
          h2 root seen3 fresh2)

/-- The optional link lands inside the id set `D`. -/
def link_in (D : Finset Nat) : Option Nat → Prop
  | none => True
  | some c => c ∈ D

instance (D : Finset Nat) : (o : Option Nat) → Decidable (link_in D o)
  | none => .isTrue trivial
  | some c => inferInstanceAs (Decidable (c ∈ D))

/-- Hypotheses under which a sanitizer call is analysed: links of
unvisited objects of the finite graph `D` stay inside `D`, the root (if
any) lies in `D` and is not yet visited, and the fresh-id counter is
above every id of `D` and of the visited list. -/
def ScrubPre (D : Finset Nat) (h : Heap) (root? : Option Nat) (seen : List Nat)
    (fresh : Nat) : Prop :=
  (∀ i ∈ D, i ∉ seen →
    link_in D ((h.nodes i).cause) ∧ link_in D ((h.nodes i).context)) ∧
  link_in D root? ∧
  (∀ r, root? = some r → r ∉ seen) ∧
  (∀ i ∈ D, i < fresh) ∧
  (∀ i ∈ seen, i < fresh)

/-- How the returned exception relates to the root object: when the
attribute loop over the root's original attributes completes without a
write failure, the returned exception is the root itself with its type
preserved; when the loop breaks on a write failure, the returned
exception is of the generic `PublicRuntimeError` type; a loop that
raises cannot end in a normal completion. -/
def ScrubRootPost (scrub_message pfx : String) (keep_message : Bool)
    (allow_list : List String) (h : Heap) (r : Nat) (h' : Heap)
    (r' : Option Nat) : Prop :=
  ∃ rid, r' = some rid ∧
    match scrub_attr_list pfx scrub_message
        (keep_message || is_exception_allowed (h.nodes r) allow_list)
        ((h.nodes r).attrs) with
    | .done _ => rid = r ∧ (h'.nodes rid).ty = (h.nodes r).ty
    | .broke _ _ _ => (h'.nodes rid).ty = "PublicRuntimeError"
    | .raised _ => False

/-- What a completed sanitizer call guarantees: it did not run out of
fuel; and on normal completion, objects already visited at entry are
untouched, objects of `D` never visited are untouched, the visited
list only grows and only by ids of `D`, the fresh counter only grows
and stays above all visited ids, and the returned exception relates to
the root as `ScrubRootPost` states. -/
def ScrubPost (scrub_message pfx : String) (keep_message : Bool)
    (allow_list : List String) (D : Finset Nat) (h : Heap) (root? : Option Nat)
    (seen : List Nat) (fresh : Nat) :
    Option (Except PyErr (Heap × Option Nat × List Nat × Nat)) → Prop
  | none => False
  | some (.error _) => True
  | some (.ok (h', r', seen', fresh')) =>
    (∀ i ∈ seen, h'.nodes i = h.nodes i) ∧
    (∀ i ∈ D, i ∉ seen' → h'.nodes i = h.nodes i) ∧
    (∀ i ∈ seen, i ∈ seen') ∧
    (∀ i ∈ seen', i ∈ seen ∨ i ∈ D) ∧
    fresh ≤ fresh' ∧
    (∀ i ∈ seen', i < fresh') ∧
    (∀ r, root? = some r →
      ScrubRootPost scrub_message pfx keep_message allow_list h r h' r')

/-- What one link step (cause or context) guarantees: no fuel
exhaustion; on normal completion, visited objects other than the root
are untouched, the root keeps its type and attributes, unvisited
objects of `D` are untouched, and the visited list and fresh counter
behave as in `ScrubPost`. -/
def LinkStepPost (D : Finset Nat) (h : Heap) (root : Nat) (seen : List Nat)
    (fresh : Nat) :
    Option (Except PyErr (Heap × List Nat × Nat)) → Prop
  | none => False
  | some (.error _) => True
  | some (.ok (h', seen', fresh')) =>
    (∀ i ∈ seen, i ≠ root → h'.nodes i = h.nodes i) ∧
    (h'.nodes root).ty = (h.nodes root).ty ∧
    (h'.nodes root).attrs = (h.nodes root).attrs ∧
    (∀ i ∈ D, i ∉ seen' → h'.nodes i = h.nodes i) ∧
    (∀ i ∈ seen, i ∈ seen') ∧
    (∀ i ∈ seen', i ∈ seen ∨ i ∈ D) ∧
    fresh ≤ fresh' ∧
    (∀ i ∈ seen', i < fresh')

/-- One chunk yielded by `TracebackException.format()`: the
`Traceback (most recent call last):` header, one formatted stack frame
(its lines), the final `type: message` line, or one of the two fixed
chaining messages. -/
inductive Chunk where
  | header
  | frame (lines : List String)
  | excLine (ty msg : String)
  | causeMsg
  | contextMsg
  deriving Repr

/-- The physical lines of a chunk, as `str.splitlines()` sees them in
the emitter.  The final line is `f"{etype}: {value}"`, or just the type
name when the rendered message is empty; the chaining messages are
CPython's `_cause_message` and `_context_message`. -/
def chunk_lines : Chunk → List String
  | .header => ["Traceback (most recent call last):"]
  | .frame ls => ls
  | .excLine ty msg => [if msg = "" then ty else ty ++ ": " ++ msg]
  | .causeMsg =>
    ["", "The above exception was the direct cause of the following exception:", ""]
  | .contextMsg =>
    ["", "During handling of the above exception, another exception occurred:", ""]

/-- Model of `TracebackException.from_exception(e)` followed by
`format()`: walk `__cause__`/`__context__` with a private `_seen` id
set (capturing a link only when present and unseen, marking the
current id before recursing), then emit the captured cause chain (or,
absent a cause, the captured context chain unless
`__suppress_context__`), the traceback header (when there are frames),
the frames, and the final `type: message` line.  Fuel-indexed like the
sanitizer; `from_exception` captures both links even though `format`
prints at most one chain, so the `_seen` threading visits both. -/
def traceback_format : Nat → Heap → Nat → List Nat →
    Option (List Chunk × List Nat)
  | 0, _, _, _ => none
  | fuel + 1, h, i, seen =>
    let seen1 := i :: seen
    let n := h.nodes i
    let causeStep : Option (Option (List Chunk) × List Nat) :=
      match n.cause with
      | some c =>
        if c ∈ seen1 then some (none, seen1)
        else
          match traceback_format fuel h c seen1 with
          | none => none
          | some (cs, seen2) => some (some cs, seen2)
      | none => some (none, seen1)
    match causeStep with
    | none => none
    | some (causeChunks, seen2) =>
      let contextStep : Option (Option (List Chunk) × List Nat) :=
        match n.context with
        | some c =>
          if c ∈ seen2 then some (none, seen2)
          else
            match traceback_format fuel h c seen2 with
            | none => none
            | some (cs, seen3) => some (some cs, seen3)
        | none => some (none, seen2)
      match contextStep with
      | none => none
      | some (contextChunks, seen3) =>
        let chain : List Chunk :=
          match causeChunks with
          | some cs => cs ++ [.causeMsg]
          | none =>
            match contextChunks with
            | some cs => if n.suppressContext then [] else cs ++ [.contextMsg]
            | none => []
        let tb : List Chunk :=
          (if n.frames.isEmpty then [] else [.header]) ++
            n.frames.map .frame ++ [.excLine n.ty (str_of_exc n)]
        some (chain ++ tb, seen3)

/-- The internal call-site marker of the decorator wrapper; a formatted
chunk containing it is filtered out of the emitted trace. -/
def WRAPPER_MARKER : String := "return function(*func_args, **func_kwargs)"

/-- Emission step of `print_prefixed_stack_trace_and_raise`: each chunk
whose text does not contain the wrapper marker is split into lines, and
each line is printed as `f"{prefix} {line}"` (with the formatted local
time inserted after the prefix when `add_timestamp`). -/
def emit_chunks (pfx : String) (add_timestamp : Bool) (current_time : String)
    (chunks : List Chunk) : List String :=
  (chunks.filter fun c =>
      !(chunk_lines c).any fun l => contains_sub WRAPPER_MARKER l).flatMap
    fun c =>
      (chunk_lines c).map fun line =>
        if add_timestamp then pfx ++ " " ++ current_time ++ " " ++ line
        else pfx ++ " " ++ line

/-- Lean translation of `print_prefixed_stack_trace_and_raise`: scrub
the error, render its formatted trace, emit the prefixed lines, and
re-raise the scrubbed error.  Returns the emitted lines, the final
heap and the id of the re-raised (scrubbed) exception; `Except.error`
is an exception escaping the sanitizer itself, and `none` means a fuel
ran out. -/
def print_prefixed_stack_trace_and_raise
    (pfx scrub_message : String) (keep_message : Bool)
    (allow_list : List String) (add_timestamp : Bool) (current_time : String)
    (fuel : Nat) (h : Heap) (err : Nat) (fresh : Nat) :
    Option (Except PyErr (List String × Heap × Nat)) :=
  match scrub_exception scrub_message pfx keep_message allow_list
      fuel h (some err) [] fresh with
  | none => none
  | some (.error e) => some (.error e)
  | some (.ok (h1, r1, _, _)) =>
    match r1 with
    | none => none
    | some r =>
      match traceback_format fuel h1 r [] with
      | none => none
      | some (chunks, _) =>
        some (.ok (emit_chunks pfx add_timestamp current_time chunks, h1, r))

/-- Result of calling a function wrapped by `_PrefixStackTraceWrapper`:
a normal return value, a re-raised (scrubbed) exception living in the
returned heap, or an exception escaping the sanitizer itself. -/
inductive WrapResult where
  | ret (v : PyVal)
  | raisedExc (h : Heap) (i : Nat) (lines : List String)
  | escaped (e : PyErr) (lines : List String)

/-- Lean translation of the `wrapper` closure of
`_PrefixStackTraceWrapper.__call__` (and of `prefix_stack_trace`): the
wrapped operation either returns a value or raises the exception at
`err` in `h`.  With `disable` the target is called directly (a raised
error propagates raw, with no output lines); otherwise an escaping
error is caught into `caught_err` and, `if caught_err:` -- a
truthiness test, so a caught falsy exception is dropped and the
wrapper returns Python's `None` -- handed to
`print_prefixed_stack_trace_and_raise`, which re-raises the scrubbed
error. -/
def wrapper_call (disable : Bool) (pfx scrub_message : String)
    (keep_message : Bool) (allow_list : List String) (add_timestamp : Bool)
    (current_time : String) (fuel : Nat) (h : Heap)
    (outcome : Except Nat PyVal) (fresh : Nat) : Option WrapResult :=
  match outcome with
  | .ok v => some (.ret v)
  | .error err =>
    if disable then some (.raisedExc h err [])
    else if (h.nodes err).truthy then
      match print_prefixed_stack_trace_and_raise pfx scrub_message keep_message
          allow_list add_timestamp current_time fuel h err fresh with
      | none => none
      | some (.error e) => some (.escaped e [])
      | some (.ok (lines, h1, r)) => some (.raisedExc h1 r lines)
    else some (.ret .vnone)

/-- Type name of the re-raised exception of a wrapper call, when it
raised one. -/
def raised_ty_of : Option WrapResult → Option String
  | some (.raisedExc h i _) => some ((h.nodes i).ty)
  | _ => none

/-- Rendered message of the re-raised exception of a wrapper call. -/
def raised_msg_of : Option WrapResult → Option String
  | some (.raisedExc h i _) => some (str_of_exc (h.nodes i))
  | _ => none

/-- Emitted output lines of a wrapper call. -/
def lines_of : Option WrapResult → List String
  | some (.raisedExc _ _ lines) => lines
  | some (.escaped _ lines) => lines
  | _ => []

/-- Did the wrapper call complete within its fuel? -/
def wrap_ran : Option WrapResult → Bool
  | some _ => true
  | none => false

/-! ## The category-aware logging gate (`shrike/compliant_logging/logging.py`) -/

/-- Modelled from the spec: `shrike/compliant_logging/constants.py` is
not under `src/`; per the spec, a log record's data category is PUBLIC
or PRIVATE. -/
inductive DataCategory where
  | PUBLIC
  | PRIVATE
  deriving DecidableEq, Repr

/-- A value stored in a log record's `extra` mapping: a string or
Python's `None` (`get_prefix()` before any `set_prefix` call). -/
inductive PrefVal where
  | str (s : String)
  | pynone
  deriving DecidableEq, Repr

/-- The module state `_PREFIX`, `None` until `set_prefix` runs. -/
def get_prefix (st : Option String) : Option String := st

/-- `set_prefix(prefix)` stores the new process-wide prefix. -/
def set_prefix (_st : Option String) (p : String) : Option String := some p

/-- The default of the `category` parameter of every `CompliantLogger`
logging method. -/
def log_default_category : DataCategory := .PRIVATE

/-- `dict.update({"prefix": p})`: replace the value of an existing key,
or append the key. -/
def dict_set : List (String × PrefVal) → String → PrefVal → List (String × PrefVal)
  | [], k, v => [(k, v)]
  | (k0, v0) :: rest, k, v =>
    if k0 = k then (k, v) :: rest else (k0, v0) :: dict_set rest k v

/-- Lean translation of the prefix-resolution part of
`CompliantLogger._log`: `p = ""`, replaced by `get_prefix()` when the
category is PUBLIC (which may be `None` before initialization), then
written into the `extra` mapping (`extra.update({"prefix": p})` when a
non-empty `extra` was passed, else a fresh `{"prefix": p}`).  Returns
the `extra` mapping the record is constructed with. -/
def CompliantLogger_log (st : Option String)
    (extra : Option (List (String × PrefVal))) (category : DataCategory) :
    List (String × PrefVal) :=
  let p : PrefVal :=
    if category = .PUBLIC then
      match get_prefix st with
      | some s => .str s
      | none => .pynone
    else .str ""
  match extra with
  | some e =>
    -- `if extra:` -- an empty dict is falsy and is replaced wholesale
    if e.isEmpty then [("prefix", p)] else dict_set e "prefix" p
  | none => [("prefix", p)]

/-- Lookup in the record's `extra` mapping. -/
def dict_get : List (String × PrefVal) → String → Option PrefVal
  | [], _ => none
  | (k0, v0) :: rest, k => if k0 = k then some v0 else dict_get rest k

/-- How many entries of the mapping carry the given key. -/
def dict_count : List (String × PrefVal) → String → Nat
  | [], _ => 0
  | (k0, _) :: rest, k => (if k0 = k then 1 else 0) + dict_count rest k

/-- The escaping exception of a sanitizer run, when there is one. -/
def scrub_result_err :
    Option (Except PyErr (Heap × Option Nat × List Nat × Nat)) → Option PyErr
  | some (.error e) => some e
  | _ => none

/-- Did the sanitizer run complete within its fuel? -/
def scrub_result_ran :
    Option (Except PyErr (Heap × Option Nat × List Nat × Nat)) → Bool
  | some _ => true
  | none => false

/-- Type name of the exception returned by a sanitizer run. -/
def scrub_result_ty :
    Option (Except PyErr (Heap × Option Nat × List Nat × Nat)) → Option String
  | some (.ok (h, some r, _, _)) => some ((h.nodes r).ty)
  | _ => none

/-- Rendered message of the exception returned by a sanitizer run. -/
def scrub_result_msg :
    Option (Except PyErr (Heap × Option Nat × List Nat × Nat)) → Option String
  | some (.ok (h, some r, _, _)) => some (str_of_exc (h.nodes r))
  | _ => none

/-! ## Descriptive predicates and concrete example objects -/

/-- The attribute is skipped by the loop filter
(`if attr and not attr.startswith("__")`). -/
def attr_skipped (a : Attr) : Prop := a.name = "" ∨ py_starts_with a.name "__"

instance (a : Attr) : Decidable (attr_skipped a) := by
  unfold attr_skipped; infer_instance

/-- Processing the attribute neither raises out of the loop nor breaks
it: the attribute is skipped, or its read raises `AttributeError`
(`continue`), or it is read and written back successfully. -/
def attr_clean (a : Attr) : Prop :=
  attr_skipped a ∨ a.read = .attrError ∨
    (a.writeErr = none ∧ ∃ v, a.read = .ok v)

/-- The effect of one successful loop iteration on one attribute:
transformed when it is processed, read and written back; untouched when
skipped or unreadable. -/
def scrub_one (pfx scrub_message : String) (keep : Bool) (a : Attr) : Attr :=
  if a.name = "" ∨ py_starts_with a.name "__" then a
  else
    match a.read, a.writeErr with
    | .ok v, none =>
      { a with read := .ok (_attribute_transformer pfx scrub_message keep v) }
    | _, _ => a

/-- The value is neither a string, nor an iterable, nor a callable:
`None` or an opaque primitive. -/
def is_plain_value : PyVal → Bool
  | .vnone => true
  | .vprim _ => true
  | _ => false

/-- A `ZeroDivisionError` as raised by `1 / 0`: one message argument,
the `with_traceback` bound method, two traceback lines. -/
def zdeExample : ExcNode :=
  { ty := "ZeroDivisionError"
    attrs := [{ name := "args"
                read := .ok (.vcoll .pytuple [.vstr "division by zero"])
                writeErr := none },
              { name := "with_traceback", read := .ok (.vfun 0), writeErr := none }]
    cause := none
    context := none
    suppressContext := false
    frames := [["  File \"hello-world.py\", line 11, in main", "    print(1 / 0)"]] }

/-- Heap holding only the `ZeroDivisionError` example. -/
def zdeHeap : Heap := ⟨fun _ => zdeExample⟩

/-- The same exception but falsy: its class overrides `__bool__` (or
`__len__`) so that `bool(err)` is `False`. -/
def falsyExample : ExcNode := { zdeExample with truthy := false }

/-- Heap holding only the falsy exception example. -/
def falsyHeap : Heap := ⟨fun _ => falsyExample⟩

/-- A `PublicValueError` carrying a private message: its type name is
on the built-in allow-list. -/
def pveExample : ExcNode :=
  { ty := "PublicValueError"
    attrs := [{ name := "args"
                read := .ok (.vcoll .pytuple [.vstr "secret data"])
                writeErr := none }]
    cause := none
    context := none
    suppressContext := false
    frames := [["  File \"x.py\", line 1, in f", "    raise"]] }

/-- Heap holding only the `PublicValueError` example. -/
def pveHeap : Heap := ⟨fun _ => pveExample⟩

/-- An exception with an attribute whose read raises a `ValueError`
(not an `AttributeError`), followed by an ordinary message attribute. -/
def readRaisesExample : ExcNode :=
  { ty := "WeirdError"
    attrs := [{ name := "boom", read := .raises "ValueError", writeErr := none },
              { name := "args"
                read := .ok (.vcoll .pytuple [.vstr "private message"])
                writeErr := none }]
    cause := none
    context := none
    suppressContext := false
    frames := [] }

/-- Heap holding only the raising-read example. -/
def readRaisesHeap : Heap := ⟨fun _ => readRaisesExample⟩

/-- Two exceptions whose `__cause__` links form a mutual cycle. -/
def cycleHeap : Heap :=
  ⟨fun i =>
    if i = 0 then
      { ty := "AError"
        attrs := [{ name := "args"
                    read := .ok (.vcoll .pytuple [.vstr "message a"])
                    writeErr := none }]
        cause := some 1, context := none, suppressContext := false, frames := [] }
    else
      { ty := "BError"
        attrs := [{ name := "args"
                    read := .ok (.vcoll .pytuple [.vstr "message b"])
                    writeErr := none }]
        cause := some 0, context := none, suppressContext := false, frames := [] }⟩

mutual

/-- The optional link is absent, or every object reachable from it
satisfies `P` and the reachable subgraph is a tree spanning exactly the
id set `S` (used to state which error graphs are tree-shaped: no
cycles and no sharing between cause and context chains). -/
inductive ReachOpt (P : ExcNode → Prop) (h : Heap) :
    Option Nat → Finset Nat → Prop where
  | none : ReachOpt P h none ∅
  | some (i : Nat) (S : Finset Nat) : ReachAll P h i S → ReachOpt P h (some i) S

/-- Every object reachable from id `i` satisfies `P`, and the
reachable subgraph is a tree spanning exactly the id set `S`. -/
inductive ReachAll (P : ExcNode → Prop) (h : Heap) : Nat → Finset Nat → Prop where
  | node (i : Nat) (S1 S2 : Finset Nat) :
      P (h.nodes i) →
      ReachOpt P h (h.nodes i).cause S1 →
      ReachOpt P h (h.nodes i).context S2 →
      i ∉ S1 → i ∉ S2 → Disjoint S1 S2 →
      ReachAll P h i (insert i (S1 ∪ S2))

end

/-- What every node of a fully scrubbed graph looks like: either a
node of the original graph whose attribute loop (with `keep = false`)
completed -- type and frames kept, attributes all transformed -- or
the fresh `PublicRuntimeError` replacing an original node whose
attribute write-back failed. -/
def ScrubbedNodeFrom (scrub_message pfx : String) (P0 : ExcNode → Prop)
    (nf : ExcNode) : Prop :=
  (∃ no, P0 no ∧ nf.ty = no.ty ∧ nf.frames = no.frames ∧
    scrub_attr_list pfx scrub_message false no.attrs = .done nf.attrs) ∨
  (∃ no errTy attrName, P0 no ∧
    (∃ a ∈ no.attrs, a.name = attrName ∧ a.writeErr = some errTy) ∧
    nf.ty = "PublicRuntimeError" ∧ nf.frames = [] ∧
    str_of_exc nf = mk_scrub_failure_msg pfx errTy attrName no.ty)

/-- Where a rendered chunk's text comes from: the dynamic chunks
(final `type: message` lines and stack frames) are produced from some
node satisfying `P`; the fixed chunks carry no node data. -/
def ChunkFrom (P : ExcNode → Prop) : Chunk → Prop
  | .excLine ty msg => ∃ n, P n ∧ n.ty = ty ∧ str_of_exc n = msg
  | .frame ls => ∃ n, P n ∧ ls ∈ n.frames
  | _ => True

/-- The node's `args` attribute, when present, is a readable tuple of
at most one string (the shape `BaseException.args` has for ordinary
single-message exceptions). -/
def args_shape_ok : ExcNode → Bool :=
  fun n => n.attrs.all fun a =>
    if a.name = "args" then
      match a.read with
      | .ok (.vcoll .pytuple []) => true
      | .ok (.vcoll .pytuple [.vstr _]) => true
      | _ => false
    else true

/-- Per-node hypotheses of the no-leak theorem: the node is not
matched by the built-in allow-list, its `args` is a readable tuple of
at most one string, and the secret `m` occurs in none of the rendered
lines the node can give rise to: neither in its bare type-name line,
nor in its type-name line followed by the scrubbed message, nor in any
of its traceback lines, nor in the scrub-failure line any of its
write-failing attributes could produce. -/
def C5NodeOK (m pfx scrub_message : String) (n : ExcNode) : Prop :=
  is_exception_allowed n [] = false ∧
  args_shape_ok n = true ∧
  contains_sub m n.ty = false ∧
  contains_sub m (n.ty ++ ": " ++ (pfx ++ scrub_message)) = false ∧
  (∀ fr ∈ n.frames, ∀ l ∈ fr, contains_sub m l = false) ∧
  (∀ a ∈ n.attrs, ∀ e, a.writeErr = some e →
    contains_sub m ("PublicRuntimeError" ++ ": "
      ++ mk_scrub_failure_msg pfx e a.name n.ty) = false)

/-- No physical line of any of the chunks contains `m` as a
substring. -/
def chunks_safe (m : String) (cs : List Chunk) : Bool :=
  cs.all fun c => (chunk_lines c).all fun l => ! contains_sub m l

/-- Scrub an exception at `root` (empty visited set) and render the
result, returning the formatted chunks. -/
def scrub_then_render (scrub_message pfx : String) (keep_message : Bool)
    (allow_list : List String) (fuel : Nat) (h : Heap) (root : Nat)
    (fresh : Nat) : List Chunk :=
  match scrub_exception scrub_message pfx keep_message allow_list
      fuel h (some root) [] fresh with
  | some (.ok (h1, some r, _, _)) =>
    match traceback_format fuel h1 r [] with
    | some (chunks, _) => chunks
    | none => []
  | _ => []

/-- A two-node `raise ... from ...` chain whose messages contain the
secret `pw`; the inner exception also has a read-only attribute, so it
gets replaced by the generic scrub-failure error. -/
def chainHeap : Heap :=
  ⟨fun i =>
    if i = 0 then
      { ty := "OuterError"
        attrs := [{ name := "args"
                    read := .ok (.vcoll .pytuple [.vstr "pw one"])
                    writeErr := none }]
        cause := some 1, context := none, suppressContext := true
        frames := [["  File \"a.py\", line 9, in f", "    raise"]] }
    else
      { ty := "InnerError"
        attrs := [{ name := "aaa", read := .ok (.vstr "pw ro")
                    writeErr := some "AttributeError" },
                  { name := "args"
                    read := .ok (.vcoll .pytuple [.vstr "pw two"])
                    writeErr := none }]
        cause := none, context := none, suppressContext := false
        frames := [] }⟩

/-! ## Basic lemmas -/

theorem Heap.nodes_set (h : Heap) (i : Nat) (n : ExcNode) (j : Nat) :
    (h.set i n).nodes j = if j = i then n else h.nodes j := by
  simp [Heap.set, Function.update]

theorem Heap.nodes_set_self (h : Heap) (i : Nat) (n : ExcNode) :
    (h.set i n).nodes i = n := by
  simp [Heap.nodes_set]

theorem Heap.nodes_set_ne (h : Heap) (i : Nat) (n : ExcNode) (j : Nat)
    (hij : j ≠ i) : (h.set i n).nodes j = h.nodes j := by
  simp [Heap.nodes_set, hij]

theorem attribute_transformer_list_eq_map (pfx scrub_message : String)
    (keep : Bool) (xs : List PyVal) :
    _attribute_transformer_list pfx scrub_message keep xs =
      xs.map (_attribute_transformer pfx scrub_message keep) := by
  induction xs with
  | nil => rfl
  | cons x xs ih => simp [_attribute_transformer_list, ih]

/-! ## Claim C1 -/

/-- Claim C1: the attribute transformer built from
(prefix, scrub_message, keep) maps a string to prefix+original when
keeping and to prefix+scrub_message when not; rebuilds a non-string
iterable of the same kind with the transform applied element-wise;
leaves a callable unchanged; and maps any other value to the absent
sentinel `None` when keep is false. -/
theorem attribute_transformer_cases (pfx scrub_message : String) (keep : Bool) :
    (∀ s, _attribute_transformer pfx scrub_message keep (.vstr s) =
      if keep then .vstr (pfx ++ s) else .vstr (pfx ++ scrub_message)) ∧
    (∀ k xs, _attribute_transformer pfx scrub_message keep (.vcoll k xs) =
      .vcoll k (xs.map (_attribute_transformer pfx scrub_message keep))) ∧
    (∀ t, _attribute_transformer pfx scrub_message keep (.vfun t) = .vfun t) ∧
    (keep = false →
      (∀ t, _attribute_transformer pfx scrub_message keep (.vprim t) = .vnone) ∧
      _attribute_transformer pfx scrub_message keep .vnone = .vnone) := by
  refine ⟨fun s => rfl, fun k xs => ?_, fun t => rfl, fun hk => ⟨fun t => ?_, rfl⟩⟩
  · simp [_attribute_transformer, attribute_transformer_list_eq_map]
  · simp [_attribute_transformer, hk]

/-- Witness for C1 at concrete inputs. -/
theorem attribute_transformer_cases_witness :
    _attribute_transformer "SystemLog:" "**scrubbed**" false (.vstr "secret") =
        .vstr ("SystemLog:" ++ "**scrubbed**") ∧
    _attribute_transformer "SystemLog:" "**scrubbed**" false (.vprim 7) = .vnone := by
  have h := attribute_transformer_cases "SystemLog:" "**scrubbed**" false
  exact ⟨h.1 "secret", (h.2.2.2 rfl).1 7⟩

/-! ## Claim C10 -/

/-- Claim C10: a value that is neither a string, nor iterable, nor
callable is returned completely unchanged by the transformer when keep
is true; only with keep false is an opaque primitive replaced by the
absent sentinel. -/
theorem attribute_transformer_keep_plain (pfx scrub_message : String) (v : PyVal)
    (hv : is_plain_value v = true) :
    _attribute_transformer pfx scrub_message true v = v ∧
    (∀ t, _attribute_transformer pfx scrub_message false (.vprim t) = .vnone) := by
  refine ⟨?_, fun t => by simp [_attribute_transformer]⟩
  cases v <;> simp_all [is_plain_value, _attribute_transformer]

/-- Witness for C10: an integer errno survives a keeping transform. -/
theorem attribute_transformer_keep_plain_witness :
    _attribute_transformer "SystemLog:" "**scrubbed**" true (.vprim 13) = .vprim 13 := by
  exact (attribute_transformer_keep_plain "SystemLog:" "**scrubbed**" (.vprim 13) rfl).1

/-! ## Claim C3 -/

theorem scrub_attr_list_clean_front (pfx scrub_message : String) (keep : Bool)
    (pre rest : List Attr) (hpre : ∀ b ∈ pre, attr_clean b) :
    scrub_attr_list pfx scrub_message keep (pre ++ rest) =
      match scrub_attr_list pfx scrub_message keep rest with
      | .done as => .done (pre.map (scrub_one pfx scrub_message keep) ++ as)
      | .broke as e nm => .broke (pre.map (scrub_one pfx scrub_message keep) ++ as) e nm
      | .raised t => .raised t := by
  induction pre with
  | nil =>
    cases h : scrub_attr_list pfx scrub_message keep rest <;> simp [h]
  | cons a pre ih =>
    have ha : attr_clean a := hpre a (List.mem_cons_self a pre)
    have ihr := ih fun b hb => hpre b (List.mem_cons_of_mem a hb)
    simp only [List.cons_append, scrub_attr_list, List.append_eq]
    by_cases hskip : a.name = "" ∨ py_starts_with a.name "__"
    · rw [if_pos hskip, ihr]
      cases h : scrub_attr_list pfx scrub_message keep rest <;>
        simp [scrub_one, if_pos hskip]
    · rw [if_neg hskip]
      rcases ha with h1 | hread | ⟨hw, v, hread⟩
      · exact absurd h1 hskip
      · rw [hread, ihr]
        cases h : scrub_attr_list pfx scrub_message keep rest <;>
          simp [scrub_one, if_neg hskip, hread]
      · rw [hread, hw, ihr]
        cases h : scrub_attr_list pfx scrub_message keep rest <;>
          simp [scrub_one, if_neg hskip, hread, hw]

/-- Claim C3: when writing the transformed value of an attribute back
fails (for any raised type), the loop does not propagate the failure:
it stops there -- the already-processed attributes transformed, the
failing one and all later ones untouched -- and the node is replaced by
a fresh generic `PublicRuntimeError` whose message names the offending
attribute and the original type and which keeps the current (already
sanitized) cause and context links. -/
theorem scrub_attr_write_failure (pfx scrub_message : String) (keep : Bool)
    (n : ExcNode) (pre post : List Attr) (a : Attr) (v : PyVal) (e : String)
    (hpre : ∀ b ∈ pre, attr_clean b)
    (hskip : ¬ (a.name = "" ∨ py_starts_with a.name "__"))
    (hread : a.read = .ok v) (hw : a.writeErr = some e) :
    scrub_attr_list pfx scrub_message keep (pre ++ a :: post) =
      .broke (pre.map (scrub_one pfx scrub_message keep) ++ a :: post) e a.name ∧
    (replacement_node pfx e a.name n).cause = n.cause ∧
    (replacement_node pfx e a.name n).context = n.context ∧
    (replacement_node pfx e a.name n).ty = "PublicRuntimeError" ∧
    str_of_exc (replacement_node pfx e a.name n) =
      mk_scrub_failure_msg pfx e a.name n.ty := by
  refine ⟨?_, rfl, rfl, rfl, rfl⟩
  rw [scrub_attr_list_clean_front pfx scrub_message keep pre (a :: post) hpre]
  unfold scrub_attr_list
  rw [if_neg hskip, hread, hw]

/-- Witness for C3 at a concrete node with a read-only attribute. -/
theorem scrub_attr_write_failure_witness :
    scrub_attr_list "SystemLog:" "**scrubbed**" false
        [{ name := "args", read := .ok (.vcoll .pytuple [.vstr "m"]), writeErr := none },
         { name := "unmodifiable", read := .ok (.vstr "ro"), writeErr := some "AttributeError" },
         { name := "zz", read := .ok (.vstr "later"), writeErr := none }] =
      .broke
        [{ name := "args"
           read := .ok (.vcoll .pytuple [.vstr ("SystemLog:" ++ "**scrubbed**")])
           writeErr := none },
         { name := "unmodifiable", read := .ok (.vstr "ro"), writeErr := some "AttributeError" },
         { name := "zz", read := .ok (.vstr "later"), writeErr := none }]
        "AttributeError" "unmodifiable" ∧
    str_of_exc (replacement_node "SystemLog:" "AttributeError" "unmodifiable" zdeExample) =
      mk_scrub_failure_msg "SystemLog:" "AttributeError" "unmodifiable" "ZeroDivisionError" := by
  have h := scrub_attr_write_failure "SystemLog:" "**scrubbed**" false zdeExample
    [{ name := "args", read := .ok (.vcoll .pytuple [.vstr "m"]), writeErr := none }]
    [{ name := "zz", read := .ok (.vstr "later"), writeErr := none }]
    { name := "unmodifiable", read := .ok (.vstr "ro"), writeErr := some "AttributeError" }
    (.vstr "ro") "AttributeError"
    (by intro b hb; simp at hb; subst hb; right; right; exact ⟨rfl, _, rfl⟩)
    (by decide) rfl rfl
  exact ⟨h.1, h.2.2.2.2⟩

/-! ## Claim C8 -/

/-- Claim C8 (amended): an attribute whose read raises `AttributeError`
is skipped (kept untouched) and the loop continues with the remaining
attributes; an attribute whose read raises any other exception type is
not caught, and the loop propagates that exception. -/
theorem scrub_attr_read_skip_only_attribute_error (pfx scrub_message : String)
    (keep : Bool) (a : Attr) (rest : List Attr)
    (hskip : ¬ (a.name = "" ∨ py_starts_with a.name "__")) :
    (a.read = .attrError →
      scrub_attr_list pfx scrub_message keep (a :: rest) =
        match scrub_attr_list pfx scrub_message keep rest with
        | .done as => .done (a :: as)
        | .broke as e nm => .broke (a :: as) e nm
        | .raised t => .raised t) ∧
    (∀ t, a.read = .raises t →
      scrub_attr_list pfx scrub_message keep (a :: rest) = .raised t) := by
  constructor
  · intro hread
    simp only [scrub_attr_list]
    rw [if_neg hskip, hread]
  · intro t hread
    simp only [scrub_attr_list]
    rw [if_neg hskip, hread]

/-- Witness for C8 at a concrete attribute list. -/
theorem scrub_attr_read_skip_only_attribute_error_witness :
    scrub_attr_list "SystemLog:" "**scrubbed**" false
        [{ name := "ghost", read := .attrError, writeErr := none },
         { name := "msg", read := .ok (.vstr "m"), writeErr := none }] =
      .done [{ name := "ghost", read := .attrError, writeErr := none },
             { name := "msg"
               read := .ok (.vstr ("SystemLog:" ++ "**scrubbed**"))
               writeErr := none }] := by
  have h := (scrub_attr_read_skip_only_attribute_error "SystemLog:" "**scrubbed**"
    false { name := "ghost", read := .attrError, writeErr := none }
    [{ name := "msg", read := .ok (.vstr "m"), writeErr := none }] (by decide)).1 rfl
  rw [h]
  rfl

/-- Counterexample to C8 as stated: a read raising a `ValueError` is
not skipped; the sanitizer aborts and propagates it instead of
continuing with the remaining attributes. -/
theorem scrub_read_failure_counterexample :
    scrub_result_err (scrub_exception SCRUB_MESSAGE PFX_DEFAULT false [] 2
        readRaisesHeap (some 0) [] 1) = some (.raised "ValueError") ∧
    scrub_attr_list PFX_DEFAULT SCRUB_MESSAGE false readRaisesExample.attrs =
      .raised "ValueError" := by
  exact ⟨rfl, rfl⟩

/-! ## Claim C4 -/

/-- Claim C4: `is_exception_allowed` returns true exactly when some
pattern of the caller-supplied list concatenated with the built-in
allow-list matches, case-insensitively, the rendered message or the
type name; a match of the first caller pattern suffices regardless of
the rest; and with an empty caller list the result is true only when a
built-in pattern matches (empty does not mean allow everything). -/
theorem is_exception_allowed_spec (n : ExcNode) (allow_list : List String) :
    (is_exception_allowed n allow_list = true ↔
      ∃ p ∈ allow_list ++ default_allow_list,
        (re_search_ci p (str_of_exc n) = true ∨ re_search_ci p n.ty = true)) ∧
    (∀ p rest,
      (re_search_ci p (str_of_exc n) = true ∨ re_search_ci p n.ty = true) →
      is_exception_allowed n (p :: rest) = true) ∧
    (is_exception_allowed n [] = true ↔
      ∃ p ∈ default_allow_list,
        (re_search_ci p (str_of_exc n) = true ∨ re_search_ci p n.ty = true)) := by
  have base : ∀ l2 : List String,
      (l2.any fun expr =>
        re_search_ci expr (str_of_exc n) || re_search_ci expr n.ty) = true ↔
      ∃ p ∈ l2,
        (re_search_ci p (str_of_exc n) = true ∨ re_search_ci p n.ty = true) := by
    intro l2
    rw [List.any_eq_true]
    simp only [Bool.or_eq_true]
  refine ⟨base (allow_list ++ default_allow_list), ?_, base default_allow_list⟩
  intro p rest hp
  simp only [is_exception_allowed, List.cons_append, List.any_cons,
    Bool.or_eq_true]
  left
  exact hp

/-- Witness for C4: a `PublicValueError` is allowed by the built-in
list even though the caller list does not match it, both with and
without caller patterns. -/
theorem is_exception_allowed_spec_witness :
    is_exception_allowed pveExample ["zzz"] = true ∧
    is_exception_allowed pveExample [] = true := by
  constructor
  · exact (is_exception_allowed_spec pveExample ["zzz"]).1.mpr
      ⟨"PublicValueError", by decide, Or.inr (by decide)⟩
  · exact (is_exception_allowed_spec pveExample []).2.2.mpr
      ⟨"PublicValueError", by decide, Or.inr (by decide)⟩

/-! ## Claim C6 -/

theorem dict_get_set (l : List (String × PrefVal)) (k : String) (v : PrefVal) :
    dict_get (dict_set l k v) k = some v := by
  induction l with
  | nil => simp [dict_set, dict_get]
  | cons kv rest ih =>
    rcases kv with ⟨k0, v0⟩
    by_cases hk : k0 = k
    · simp [dict_set, hk, dict_get]
    · simp [dict_set, hk, dict_get, ih]

theorem dict_count_eq_zero (l : List (String × PrefVal)) (k : String)
    (hk : k ∉ l.map Prod.fst) : dict_count l k = 0 := by
  induction l with
  | nil => rfl
  | cons kv rest ih =>
    rcases kv with ⟨k0, v0⟩
    simp only [List.map_cons, List.mem_cons, not_or] at hk
    have h1 : ¬ (k0 = k) := fun h => hk.1 h.symm
    simp [dict_count, h1, ih hk.2]

theorem dict_count_set (l : List (String × PrefVal)) (k : String) (v : PrefVal)
    (hnd : (l.map Prod.fst).Nodup) : dict_count (dict_set l k v) k = 1 := by
  induction l with
  | nil => simp [dict_set, dict_count]
  | cons kv rest ih =>
    rcases kv with ⟨k0, v0⟩
    simp only [List.map_cons, List.nodup_cons] at hnd
    by_cases hk : k0 = k
    · subst hk
      simp [dict_set, dict_count, dict_count_eq_zero rest k0 hnd.1]
    · simp [dict_set, hk, dict_count, ih hnd.2]

/-- Claim C6 (amended): every record carries exactly one `prefix`
entry; it is the empty string whenever the category is PRIVATE (the
default), and `get_prefix()` whenever the category is PUBLIC -- which
is the registered prefix string once initialized, but the non-string
`None` before any `set_prefix` call. -/
theorem compliant_log_prefix_resolution (st : Option String)
    (extra : Option (List (String × PrefVal))) (category : DataCategory)
    (hnd : ∀ e, extra = some e → (e.map Prod.fst).Nodup) :
    dict_get (CompliantLogger_log st extra category) "prefix" =
      some (if category = .PUBLIC then
              match st with
              | some s => .str s
              | none => .pynone
            else .str "") ∧
    dict_count (CompliantLogger_log st extra category) "prefix" = 1 ∧
    (category = .PRIVATE →
      dict_get (CompliantLogger_log st extra category) "prefix" =
        some (.str "")) ∧
    (∀ s, st = some s → category = .PUBLIC →
      dict_get (CompliantLogger_log st extra category) "prefix" =
        some (.str s)) ∧
    log_default_category = .PRIVATE := by
  have main : dict_get (CompliantLogger_log st extra category) "prefix" =
      some (if category = .PUBLIC then
              match st with
              | some s => .str s
              | none => .pynone
            else .str "") ∧
      dict_count (CompliantLogger_log st extra category) "prefix" = 1 := by
    unfold CompliantLogger_log get_prefix
    cases extra with
    | none => cases category <;> cases st <;> simp [dict_get, dict_count]
    | some e =>
      have hnde := hnd e rfl
      by_cases he : e.isEmpty
      · cases category <;> cases st <;> simp [he, dict_get, dict_count]
      · cases category <;> cases st <;>
          simp [he, dict_get_set, dict_count_set e _ _ hnde]
  refine ⟨main.1, main.2, ?_, ?_, rfl⟩
  · intro hcat
    rw [main.1, hcat]
    rfl
  · intro s hst hcat
    rw [main.1, hcat, hst]
    rfl

/-- Witness for C6 at a concrete initialized state, public category and
a caller-supplied `extra` mapping. -/
theorem compliant_log_prefix_resolution_witness :
    dict_get (CompliantLogger_log (some "SystemLog:")
        (some [("foo", .str "x")]) .PUBLIC) "prefix" =
      some (.str "SystemLog:") ∧
    dict_count (CompliantLogger_log (some "SystemLog:")
        (some [("foo", .str "x")]) .PUBLIC) "prefix" = 1 := by
  have h := compliant_log_prefix_resolution (some "SystemLog:")
    (some [("foo", .str "x")]) .PUBLIC
    (by intro e he; cases he; decide)
  exact ⟨h.2.2.2.1 "SystemLog:" rfl rfl, h.2.1⟩

/-- Counterexample to C6 as stated: a PUBLIC record logged before the
prefix has been initialized carries Python's `None` in its `prefix`
field, which is not a string (in particular neither the empty string
nor a registered prefix). -/
theorem compliant_log_public_uninitialized_counterexample :
    CompliantLogger_log none none .PUBLIC = [("prefix", .pynone)] ∧
    PrefVal.pynone ≠ PrefVal.str "" ∧
    PrefVal.pynone ≠ PrefVal.str "SystemLog:" := by
  refine ⟨rfl, by decide, by decide⟩

/-! ## Claim C2: termination of the sanitizer -/

theorem str_of_exc_congr (n m : ExcNode) (hattrs : n.attrs = m.attrs) :
    str_of_exc n = str_of_exc m := by
  unfold str_of_exc lookup_attr_value
  rw [hattrs]

theorem is_exception_allowed_congr (n m : ExcNode) (hty : n.ty = m.ty)
    (hattrs : n.attrs = m.attrs) (allow_list : List String) :
    is_exception_allowed n allow_list = is_exception_allowed m allow_list := by
  unfold is_exception_allowed
  rw [hty, str_of_exc_congr n m hattrs]

theorem scrub_cause_step_post
    (recurse : Heap → Option Nat → List Nat → Nat →
      Option (Except PyErr (Heap × Option Nat × List Nat × Nat)))
    (scrub_message pfx : String) (keep_message : Bool) (allow_list : List String)
    (D : Finset Nat) (B : Nat) (h : Heap) (root : Nat) (seen : List Nat)
    (fresh : Nat)
    (hIH : ∀ h0 root? seen0 fresh0, ScrubPre D h0 root? seen0 fresh0 →
      (D \ seen0.toFinset).card < B →
      ScrubPost scrub_message pfx keep_message allow_list D h0 root? seen0 fresh0
        (recurse h0 root? seen0 fresh0))
    (hlinks : ∀ i ∈ D, i ∉ seen →
      link_in D ((h.nodes i).cause) ∧ link_in D ((h.nodes i).context))
    (hcauseD : link_in D ((h.nodes root).cause))
    (hDf : ∀ i ∈ D, i < fresh) (hSf : ∀ i ∈ seen, i < fresh)
    (hrseen : root ∈ seen)
    (hcard : (D \ seen.toFinset).card < B) :
    LinkStepPost D h root seen fresh
      (scrub_cause_step recurse h root seen fresh) ∧
    (∀ h' seen' fresh',
      scrub_cause_step recurse h root seen fresh = some (.ok (h', seen', fresh')) →
      (h'.nodes root).context = (h.nodes root).context) := by
  unfold scrub_cause_step
  cases hc : (h.nodes root).cause with
  | none =>
    refine ⟨⟨fun i _ _ => rfl, rfl, rfl, fun i _ _ => rfl, fun i hi => hi,
      fun i hi => Or.inl hi, le_refl _, hSf⟩, ?_⟩
    intro h' seen' fresh' heq
    simp only [Option.some.injEq, Except.ok.injEq, Prod.mk.injEq] at heq
    obtain ⟨h1, _, _⟩ := heq
    rw [← h1]
  | some c =>
    rw [hc] at hcauseD
    dsimp only
    by_cases hcs : c ∈ seen
    · rw [if_pos hcs]
      refine ⟨⟨fun i _ _ => rfl, rfl, rfl, fun i _ _ => rfl, fun i hi => hi,
        fun i hi => Or.inl hi, le_refl _, hSf⟩, ?_⟩
      intro h' seen' fresh' heq
      simp only [Option.some.injEq, Except.ok.injEq, Prod.mk.injEq] at heq
      obtain ⟨h1, _, _⟩ := heq
      rw [← h1]
    · rw [if_neg hcs]
      have hpre : ScrubPre D h (some c) seen fresh :=
        ⟨hlinks, hcauseD, fun r hr => by cases hr; exact hcs, hDf, hSf⟩
      have hp := hIH h (some c) seen fresh hpre hcard
      cases hres : recurse h (some c) seen fresh with
      | none => rw [hres] at hp; exact hp.elim
      | some res =>
        rw [hres] at hp
        cases res with
        | error e =>
          exact ⟨trivial, fun h' seen' fresh' heq => nomatch heq⟩
        | ok tup =>
          obtain ⟨h1, r1, seen2, fresh1⟩ := tup
          simp only [ScrubPost] at hp
          obtain ⟨p_seen, p_unvis, p_mono, p_sub, p_fresh, p_slt, _⟩ := hp
          have hroot1 : h1.nodes root = h.nodes root := p_seen root hrseen
          refine ⟨⟨?_, ?_, ?_, ?_, ?_, p_sub, p_fresh, p_slt⟩, ?_⟩
          · intro i hi hir
            rw [Heap.nodes_set_ne _ _ _ _ hir]
            exact p_seen i hi
          · rw [Heap.nodes_set_self, hroot1]
          · rw [Heap.nodes_set_self, hroot1]
          · intro i hi hni
            have hir : i ≠ root := fun hx => hni (hx ▸ p_mono root hrseen)
            rw [Heap.nodes_set_ne _ _ _ _ hir]
            exact p_unvis i hi hni
          · exact p_mono
          · intro h' seen' fresh' heq
            simp only [Option.some.injEq, Except.ok.injEq, Prod.mk.injEq] at heq
            obtain ⟨hh, _, _⟩ := heq
            rw [← hh, Heap.nodes_set_self, hroot1]

theorem scrub_context_step_post
    (recurse : Heap → Option Nat → List Nat → Nat →
      Option (Except PyErr (Heap × Option Nat × List Nat × Nat)))
    (scrub_message pfx : String) (keep_message : Bool) (allow_list : List String)
    (D : Finset Nat) (B : Nat) (h : Heap) (root : Nat) (seen : List Nat)
    (fresh : Nat)
    (hIH : ∀ h0 root? seen0 fresh0, ScrubPre D h0 root? seen0 fresh0 →
      (D \ seen0.toFinset).card < B →
      ScrubPost scrub_message pfx keep_message allow_list D h0 root? seen0 fresh0
        (recurse h0 root? seen0 fresh0))
    (hlinks : ∀ i ∈ D, i ∉ seen →
      link_in D ((h.nodes i).cause) ∧ link_in D ((h.nodes i).context))
    (hctxD : link_in D ((h.nodes root).context))
    (hDf : ∀ i ∈ D, i < fresh) (hSf : ∀ i ∈ seen, i < fresh)
    (hrseen : root ∈ seen)
    (hcard : (D \ seen.toFinset).card < B) :
    LinkStepPost D h root seen fresh
      (scrub_context_step recurse h root seen fresh) := by
  unfold scrub_context_step
  cases hc : (h.nodes root).context with
  | none =>
    exact ⟨fun i _ _ => rfl, rfl, rfl, fun i _ _ => rfl, fun i hi => hi,
      fun i hi => Or.inl hi, le_refl _, hSf⟩
  | some c =>
    rw [hc] at hctxD
    dsimp only
    by_cases hcs : c ∈ seen
    · rw [if_pos hcs]
      exact ⟨fun i _ _ => rfl, rfl, rfl, fun i _ _ => rfl, fun i hi => hi,
        fun i hi => Or.inl hi, le_refl _, hSf⟩
    · rw [if_neg hcs]
      have hpre : ScrubPre D h (some c) seen fresh :=
        ⟨hlinks, hctxD, fun r hr => by cases hr; exact hcs, hDf, hSf⟩
      have hp := hIH h (some c) seen fresh hpre hcard
      cases hres : recurse h (some c) seen fresh with
      | none => rw [hres] at hp; exact hp.elim
      | some res =>
        rw [hres] at hp
        cases res with
        | error e => trivial
        | ok tup =>
          obtain ⟨h1, r1, seen2, fresh1⟩ := tup
          simp only [ScrubPost] at hp
          obtain ⟨p_seen, p_unvis, p_mono, p_sub, p_fresh, p_slt, _⟩ := hp
          have hroot1 : h1.nodes root = h.nodes root := p_seen root hrseen
          refine ⟨?_, ?_, ?_, ?_, ?_, p_sub, p_fresh, p_slt⟩
          · intro i hi hir
            rw [Heap.nodes_set_ne _ _ _ _ hir]
            exact p_seen i hi
          · rw [Heap.nodes_set_self, hroot1]
          · rw [Heap.nodes_set_self, hroot1]
          · intro i hi hni
            have hir : i ≠ root := fun hx => hni (hx ▸ p_mono root hrseen)
            rw [Heap.nodes_set_ne _ _ _ _ hir]
            exact p_unvis i hi hni
          · exact p_mono

theorem scrub_attrs_step_post (scrub_message pfx : String) (keep_message : Bool)
    (allow_list : List String) (h : Heap) (root : Nat) (seen : List Nat)
    (fresh : Nat) :
    ∀ h' r' seen' fresh',
      scrub_attrs_step scrub_message pfx keep_message allow_list h root seen fresh
        = .ok (h', r', seen', fresh') →
      (∀ i, i ≠ root → i < fresh → h'.nodes i = h.nodes i) ∧
      seen' = seen ∧ fresh ≤ fresh' ∧
      ScrubRootPost scrub_message pfx keep_message allow_list h root h' r' := by
  intro h' r' seen' fresh' heq
  simp only [scrub_attrs_step] at heq
  revert heq
  cases hl : scrub_attr_list pfx scrub_message
      (keep_message || is_exception_allowed (h.nodes root) allow_list)
      (h.nodes root).attrs with
  | raised t => intro heq; cases heq
  | done as =>
    intro heq
    simp only [Except.ok.injEq, Prod.mk.injEq] at heq
    obtain ⟨hh, hr, hs, hf⟩ := heq
    subst hs hf
    refine ⟨?_, rfl, le_refl _, root, hr.symm, ?_⟩
    · intro i hir _
      rw [← hh, Heap.nodes_set_ne _ _ _ _ hir]
    · rw [hl]
      dsimp only
      refine ⟨rfl, ?_⟩
      rw [← hh, Heap.nodes_set_self]
  | broke as e nm =>
    intro heq
    simp only [Except.ok.injEq, Prod.mk.injEq] at heq
    obtain ⟨hh, hr, hs, hf⟩ := heq
    subst hs
    refine ⟨?_, rfl, by omega, fresh, hr.symm, ?_⟩
    · intro i hir hif
      rw [← hh, Heap.nodes_set_ne _ _ _ _ (Nat.ne_of_lt hif),
        Heap.nodes_set_ne _ _ _ _ hir]
    · rw [hl]
      dsimp only
      rw [← hh, Heap.nodes_set_self]
      rfl

/-- Fuel sufficiency for the sanitizer, proved by induction on the
fuel: whenever the fuel exceeds the number of ids of the (finite) graph
not yet visited, the sanitizer completes -- the `_seen` set is extended
before the cause/context recursions, visited links are not recursed
into, so each recursion strictly shrinks the unvisited count. -/
theorem scrub_exception_fuel_sufficient
    (scrub_message pfx : String) (keep_message : Bool) (allow_list : List String) :
    ∀ (fuel : Nat) (D : Finset Nat) (h : Heap) (root? : Option Nat)
      (seen : List Nat) (fresh : Nat),
    ScrubPre D h root? seen fresh →
    (D \ seen.toFinset).card < fuel →
    ScrubPost scrub_message pfx keep_message allow_list D h root? seen fresh
      (scrub_exception scrub_message pfx keep_message allow_list
        fuel h root? seen fresh) := by
  intro fuel
  induction fuel with
  | zero =>
    intro D h root? seen fresh _ hcard
    exact absurd hcard (Nat.not_lt_zero _)
  | succ fuel ih =>
    intro D h root? seen fresh hpre hcard
    obtain ⟨hlinks, hroot, hrs, hDf, hSf⟩ := hpre
    match root? with
    | none =>
      exact ⟨fun i _ => rfl, fun i _ _ => rfl, fun i hi => hi,
        fun i hi => Or.inl hi, le_refl _, hSf, fun r hr => nomatch hr⟩
    | some root =>
      have hrD : root ∈ D := hroot
      have hrseen : root ∉ seen := hrs root rfl
      have hmem : root ∈ D \ seen.toFinset :=
        Finset.mem_sdiff.mpr ⟨hrD, fun hx => hrseen (List.mem_toFinset.mp hx)⟩
      have hcard1 : (D \ (root :: seen).toFinset).card < fuel := by
        have he : D \ (root :: seen).toFinset = (D \ seen.toFinset).erase root := by
          rw [List.toFinset_cons, Finset.sdiff_insert]
        rw [he, Finset.card_erase_of_mem hmem]
        have hpos : 0 < (D \ seen.toFinset).card := Finset.card_pos.mpr ⟨root, hmem⟩
        omega
      have hSf1 : ∀ i ∈ root :: seen, i < fresh := by
        intro i hi
        rcases List.mem_cons.mp hi with h1 | h1
        · exact h1 ▸ hDf root hrD
        · exact hSf i h1
      have hcause := scrub_cause_step_post
        (scrub_exception scrub_message pfx keep_message allow_list fuel)
        scrub_message pfx keep_message allow_list
        D fuel h root (root :: seen) fresh
        (fun h0 r0 s0 f0 hp hc => ih D h0 r0 s0 f0 hp hc)
        (fun i hi hni => hlinks i hi fun hx => hni (List.mem_cons_of_mem root hx))
        (hlinks root hrD hrseen).1
        hDf hSf1 (List.mem_cons_self root seen) hcard1
      simp only [scrub_exception]
      cases hres1 : scrub_cause_step
          (scrub_exception scrub_message pfx keep_message allow_list fuel)
          h root (root :: seen) fresh with
      | none =>
        rw [hres1] at hcause
        exact hcause.1.elim
      | some res1 =>
        rw [hres1] at hcause
        cases res1 with
        | error e1 => exact trivial
        | ok tup1 =>
          obtain ⟨h1, seen2, fresh1⟩ := tup1
          dsimp only
          obtain ⟨⟨c_seen, c_ty, c_attrs, c_unvis, c_mono, c_sub, c_fresh, c_slt⟩,
            c_ctx⟩ := hcause
          have hctx1 : (h1.nodes root).context = (h.nodes root).context :=
            c_ctx h1 seen2 fresh1 rfl
          have hsub12 : ∀ i ∈ root :: seen, i ∈ seen2 := c_mono
          have hDf1 : ∀ i ∈ D, i < fresh1 :=
            fun i hi => Nat.lt_of_lt_of_le (hDf i hi) c_fresh
          have hcard2 : (D \ seen2.toFinset).card < fuel := by
            refine Nat.lt_of_le_of_lt (Finset.card_le_card ?_) hcard1
            intro x hx
            rw [Finset.mem_sdiff] at hx ⊢
            exact ⟨hx.1, fun hm => hx.2
              (List.mem_toFinset.mpr (hsub12 x (List.mem_toFinset.mp hm)))⟩
          have hctx := scrub_context_step_post
            (scrub_exception scrub_message pfx keep_message allow_list fuel)
            scrub_message pfx keep_message allow_list
            D fuel h1 root seen2 fresh1
            (fun h0 r0 s0 f0 hp hc => ih D h0 r0 s0 f0 hp hc)
            (by
              intro i hi hni
              have hni1 : i ∉ root :: seen := fun hx => hni (hsub12 i hx)
              have hni0 : i ∉ seen := fun hx => hni1 (List.mem_cons_of_mem root hx)
              rw [c_unvis i hi hni]
              exact hlinks i hi hni0)
            (by rw [hctx1]; exact (hlinks root hrD hrseen).2)
            hDf1 c_slt (hsub12 root (List.mem_cons_self root seen)) hcard2
          cases hres2 : scrub_context_step
              (scrub_exception scrub_message pfx keep_message allow_list fuel)
              h1 root seen2 fresh1 with
          | none =>
            rw [hres2] at hctx
            exact hctx.elim
          | some res2 =>
            rw [hres2] at hctx
            cases res2 with
            | error e2 => exact trivial
            | ok tup2 =>
              obtain ⟨h2, seen3, fresh2⟩ := tup2
              dsimp only
              obtain ⟨x_seen, x_ty, x_attrs, x_unvis, x_mono, x_sub, x_fresh,
                x_slt⟩ := hctx
              cases hres3 : scrub_attrs_step scrub_message pfx keep_message
                  allow_list h2 root seen3 fresh2 with
              | error e3 => exact trivial
              | ok tup3 =>
                obtain ⟨h3, r3, seen4, fresh3⟩ := tup3
                obtain ⟨a_pres, a_seen, a_fresh, a_root⟩ :=
                  scrub_attrs_step_post scrub_message pfx keep_message allow_list
                    h2 root seen3 fresh2 h3 r3 seen4 fresh3 hres3
                subst a_seen
                have hmono03 : ∀ i ∈ seen, i ∈ seen4 :=
                  fun i hi => x_mono i (hsub12 i (List.mem_cons_of_mem root hi))
                refine ⟨?_, ?_, hmono03, ?_, ?_, ?_, ?_⟩
                · -- objects visited at entry are untouched
                  intro i hi
                  have hir : i ≠ root := fun hx => hrseen (hx ▸ hi)
                  have hif2 : i < fresh2 :=
                    Nat.lt_of_lt_of_le (Nat.lt_of_lt_of_le (hSf i hi) c_fresh)
                      x_fresh
                  rw [a_pres i hir hif2,
                    x_seen i (hsub12 i (List.mem_cons_of_mem root hi)) hir,
                    c_seen i (List.mem_cons_of_mem root hi) hir]
                · -- unvisited objects of D are untouched
                  intro i hi hni3
                  have hni2 : i ∉ seen2 := fun hx => hni3 (x_mono i hx)
                  have hni1 : i ∉ root :: seen := fun hx => hni2 (hsub12 i hx)
                  have hir : i ≠ root :=
                    fun hx => hni1 (hx ▸ List.mem_cons_self root seen)
                  rw [a_pres i hir (Nat.lt_of_lt_of_le (hDf1 i hi) x_fresh),
                    x_unvis i hi hni3, c_unvis i hi hni2]
                · -- the visited list grows only by ids of D
                  intro i hi3
                  rcases x_sub i hi3 with h2' | h2'
                  · rcases c_sub i h2' with h1' | h1'
                    · rcases List.mem_cons.mp h1' with h0' | h0'
                      · exact Or.inr (h0' ▸ hrD)
                      · exact Or.inl h0'
                    · exact Or.inr h1'
                  · exact Or.inr h2'
                · exact Nat.le_trans c_fresh (Nat.le_trans x_fresh a_fresh)
                · intro i hi3
                  exact Nat.lt_of_lt_of_le (x_slt i hi3) a_fresh
                · intro r hr
                  cases hr
                  have hty02 : (h2.nodes root).ty = (h.nodes root).ty :=
                    x_ty.trans c_ty
                  have hattrs02 : (h2.nodes root).attrs = (h.nodes root).attrs :=
                    x_attrs.trans c_attrs
                  have hallow :
                      is_exception_allowed (h2.nodes root) allow_list =
                        is_exception_allowed (h.nodes root) allow_list :=
                    is_exception_allowed_congr _ _ hty02 hattrs02 allow_list
                  obtain ⟨rid, hrid, hmatch⟩ := a_root
                  refine ⟨rid, hrid, ?_⟩
                  rw [hallow, hattrs02, hty02] at hmatch
                  exact hmatch
/-- Claim C2: for every finite exception graph -- including graphs
whose cause or context links are self-referential or form mutual
cycles -- the sanitizer terminates: with fuel exceeding the number of
not-yet-visited objects it never runs out, because each object id is
added to the visited set before its cause/context links are recursed
into and already-visited links are not recursed into. -/
theorem scrub_exception_terminates
    (scrub_message pfx : String) (keep_message : Bool) (allow_list : List String)
    (fuel : Nat) (D : Finset Nat) (h : Heap) (root? : Option Nat)
    (seen : List Nat) (fresh : Nat)
    (hpre : ScrubPre D h root? seen fresh)
    (hcard : (D \ seen.toFinset).card < fuel) :
    scrub_exception scrub_message pfx keep_message allow_list
      fuel h root? seen fresh ≠ none := by
  have hp := scrub_exception_fuel_sufficient scrub_message pfx keep_message
    allow_list fuel D h root? seen fresh hpre hcard
  intro hn
  rw [hn] at hp
  exact hp

/-- Witness for C2: a two-object mutual `__cause__` cycle is sanitized
without running out of fuel. -/
theorem scrub_exception_terminates_witness :
    scrub_exception SCRUB_MESSAGE PFX_DEFAULT false [] 3
      cycleHeap (some 0) [] 2 ≠ none := by
  apply scrub_exception_terminates SCRUB_MESSAGE PFX_DEFAULT false [] 3
    ({0, 1} : Finset Nat) cycleHeap (some 0) [] 2
  · refine ⟨by decide, by decide, ?_, by decide, ?_⟩
    · intro r hr
      cases hr
      exact List.not_mem_nil 0
    · intro i hi
      exact absurd hi (List.not_mem_nil i)
  · decide
/-! ## Claim C7 -/

/-- Claim C7 (amended): when the wrapped operation raises an exception
that is truthy -- as every exception is unless its class overrides
`__bool__`/`__len__` -- the wrapper never returns normally: the caller
observes either the re-raised scrubbed exception or an error escaping
the sanitizer itself, and the re-raised exception keeps the original
root exception whenever its attribute loop completes without a write
failure (type preserved whether or not the type is allow-listed), and
is the generic `PublicRuntimeError` replacement exactly when an
attribute write-back failed.  A caught falsy exception, however, is
silently dropped (`if caught_err:` is a truthiness test) and the
wrapper returns Python's `None` normally. -/
theorem wrapper_reraise_type (scrub_message pfx : String)
    (keep_message : Bool) (allow_list : List String) (add_timestamp : Bool)
    (current_time : String) (fuel : Nat) (D : Finset Nat) (h : Heap)
    (err : Nat) (fresh : Nat)
    (hpre : ScrubPre D h (some err) [] fresh)
    (hcard : (D \ (([] : List Nat)).toFinset).card < fuel) :
    ((h.nodes err).truthy = false →
      wrapper_call false pfx scrub_message keep_message allow_list
        add_timestamp current_time fuel h (.error err) fresh
        = some (.ret .vnone)) ∧
    ((h.nodes err).truthy = true →
      ∀ res, wrapper_call false pfx scrub_message keep_message allow_list
          add_timestamp current_time fuel h (.error err) fresh = some res →
        (∀ v, res ≠ .ret v) ∧
        (∀ h' i lines, res = .raisedExc h' i lines →
          ScrubRootPost scrub_message pfx keep_message allow_list h err h'
            (some i))) := by
  constructor
  · intro htr
    simp only [wrapper_call, Bool.false_eq_true, if_false, htr]
  intro htr res hres
  have hp := scrub_exception_fuel_sufficient scrub_message pfx keep_message
    allow_list fuel D h (some err) [] fresh hpre hcard
  simp only [wrapper_call, Bool.false_eq_true, if_false, htr, if_true,
    print_prefixed_stack_trace_and_raise] at hres
  revert hres
  cases hs : scrub_exception scrub_message pfx keep_message allow_list
      fuel h (some err) [] fresh with
  | none =>
    rw [hs] at hp
    exact hp.elim
  | some sres =>
    rw [hs] at hp
    cases sres with
    | error e =>
      intro hres
      cases hres
      exact ⟨fun v hv => (nomatch hv), fun h' i lines hv => (nomatch hv)⟩
    | ok tup =>
      obtain ⟨h1, r1, seen1, fresh1⟩ := tup
      obtain ⟨_, _, _, _, _, _, hroot⟩ := hp
      obtain ⟨rid, hrid, hmatch⟩ := hroot err rfl
      subst hrid
      dsimp only
      cases ht : traceback_format fuel h1 rid [] with
      | none => intro hres; cases hres
      | some chtup =>
        obtain ⟨chunks, seenr⟩ := chtup
        intro hres
        cases hres
        refine ⟨fun v hv => (nomatch hv), ?_⟩
        intro h' i lines hv
        cases hv
        exact ⟨rid, rfl, hmatch⟩

/-- Witness for C7: the division-by-zero example is re-raised with its
own type, and the falsy variant of the same exception is swallowed --
the wrapper returns `None` normally. -/
theorem wrapper_reraise_type_witness :
    (raised_ty_of (wrapper_call false PFX_DEFAULT SCRUB_MESSAGE false [] false ""
      5 zdeHeap (.error 0) 1) ≠ some "PublicRuntimeError") ∧
    wrapper_call false PFX_DEFAULT SCRUB_MESSAGE false [] false ""
      5 falsyHeap (.error 0) 1 = some (.ret .vnone) := by
  constructor
  case right =>
    exact (wrapper_reraise_type SCRUB_MESSAGE PFX_DEFAULT false [] false ""
      5 ({0} : Finset Nat) falsyHeap 0 1
      ⟨by decide, by decide, fun r hr => by cases hr; exact List.not_mem_nil 0,
        by decide, fun i hi => absurd hi (List.not_mem_nil i)⟩
      (by decide)).1 rfl
  intro hcontr
  have happ := (wrapper_reraise_type SCRUB_MESSAGE PFX_DEFAULT false [] false ""
    5 ({0} : Finset Nat) zdeHeap 0 1
    ⟨by decide, by decide, fun r hr => by cases hr; exact List.not_mem_nil 0,
      by decide, fun i hi => absurd hi (List.not_mem_nil i)⟩
    (by decide)).2 rfl
  cases hres : wrapper_call false PFX_DEFAULT SCRUB_MESSAGE false [] false ""
      5 zdeHeap (.error 0) 1 with
  | none =>
    have hran : wrap_ran (wrapper_call false PFX_DEFAULT SCRUB_MESSAGE false []
        false "" 5 zdeHeap (.error 0) 1) = true := rfl
    rw [hres] at hran
    exact nomatch hran
  | some res =>
    have hco := happ res hres
    rw [hres] at hcontr
    cases res with
    | ret v => exact nomatch hcontr
    | escaped e lines => exact nomatch hcontr
    | raisedExc h' i lines =>
      obtain ⟨rid, hrid, hmatch⟩ := hco.2 h' i lines rfl
      have hi : i = rid := by
        simpa using hrid
      rw [hi] at hcontr
      have hsl : scrub_attr_list PFX_DEFAULT SCRUB_MESSAGE
          (false || is_exception_allowed (zdeHeap.nodes 0) [])
          ((zdeHeap.nodes 0).attrs) =
          LoopOut.done
            [{ name := "args"
               read := .ok (.vcoll .pytuple
                 [.vstr (PFX_DEFAULT ++ SCRUB_MESSAGE)])
               writeErr := none },
             { name := "with_traceback", read := .ok (.vfun 0),
               writeErr := none }] := rfl
      rw [hsl] at hmatch
      dsimp only at hmatch
      have hty : (h'.nodes rid).ty = (zdeHeap.nodes 0).ty := hmatch.2
      simp only [raised_ty_of] at hcontr
      rw [hty] at hcontr
      exact absurd (Option.some.inj hcontr) (by decide)

/-- Counterexample to C7 as stated: a `ZeroDivisionError` is neither
allow-listed nor of a public type, yet the re-raised exception has
that same specific type -- the caller does not observe a generic
runtime error wrapping a type-erased detail. -/
theorem wrapper_generic_error_counterexample :
    raised_ty_of (wrapper_call false PFX_DEFAULT SCRUB_MESSAGE false [] false ""
        5 zdeHeap (.error 0) 1) = some "ZeroDivisionError" ∧
    is_exception_allowed zdeExample [] = false ∧
    "ZeroDivisionError" ≠ "PublicRuntimeError" ∧
    "ZeroDivisionError" ≠ "RuntimeError" := by
  exact ⟨rfl, by decide, by decide, by decide⟩

/-! ## Claim C9 -/

/-- Claim C9 (amended): for the division-by-zero scenario with all
defaults, the emitted output contains `SystemLog: Traceback (most
recent call last):` and the final line
`SystemLog: ZeroDivisionError: SystemLog:**Exception message scrubbed**`
(the scrubbed message itself carries the prefix, so the prefix appears
twice on that line); the re-raised exception has its message scrubbed
to `SystemLog:**Exception message scrubbed**`, which begins with
`SystemLog:` and does not contain the literal division message; and
its type stays `ZeroDivisionError`. -/
theorem division_by_zero_scenario :
    lines_of (wrapper_call false PFX_DEFAULT SCRUB_MESSAGE false [] false ""
        5 zdeHeap (.error 0) 1) =
      ["SystemLog: Traceback (most recent call last):",
       "SystemLog:   File \"hello-world.py\", line 11, in main",
       "SystemLog:     print(1 / 0)",
       "SystemLog: ZeroDivisionError: SystemLog:**Exception message scrubbed**"] ∧
    raised_msg_of (wrapper_call false PFX_DEFAULT SCRUB_MESSAGE false [] false ""
        5 zdeHeap (.error 0) 1) =
      some "SystemLog:**Exception message scrubbed**" ∧
    py_starts_with "SystemLog:**Exception message scrubbed**" "SystemLog:" = true ∧
    contains_sub "division by zero" "SystemLog:**Exception message scrubbed**"
      = false ∧
    raised_ty_of (wrapper_call false PFX_DEFAULT SCRUB_MESSAGE false [] false ""
        5 zdeHeap (.error 0) 1) = some "ZeroDivisionError" := by
  refine ⟨by decide, by decide, by decide, by decide, by decide⟩

/-- Counterexample to C9 as stated: the claimed output line
`SystemLog: ZeroDivisionError: **Exception message scrubbed**` appears
nowhere in the emitted output (no emitted line even contains it as a
substring -- the actual final line carries the prefix a second time
inside the scrubbed message). -/
theorem division_by_zero_line_counterexample :
    ("SystemLog: ZeroDivisionError: **Exception message scrubbed**" ∉
      lines_of (wrapper_call false PFX_DEFAULT SCRUB_MESSAGE false [] false ""
        5 zdeHeap (.error 0) 1)) ∧
    ((lines_of (wrapper_call false PFX_DEFAULT SCRUB_MESSAGE false [] false ""
        5 zdeHeap (.error 0) 1)).all fun l =>
      !(contains_sub "SystemLog: ZeroDivisionError: **Exception message scrubbed**"
          l)) = true := by
  exact ⟨by decide, by decide⟩

/-! ## Claim C5 -/

theorem ReachAll_mem (P : ExcNode → Prop) (h : Heap) (i : Nat) (S : Finset Nat)
    (hd : ReachAll P h i S) : i ∈ S := by
  cases hd
  exact Finset.mem_insert_self _ _


theorem ReachAll_frame (P : ExcNode → Prop) (h h' : Heap) (i : Nat)
    (S : Finset Nat) (hd : ReachAll P h i S)
    (hagree : ∀ j ∈ S, h'.nodes j = h.nodes j) : ReachAll P h' i S := by
  refine @ReachAll.rec P h
    (fun o S _ => (∀ j ∈ S, h'.nodes j = h.nodes j) → ReachOpt P h' o S)
    (fun i S _ => (∀ j ∈ S, h'.nodes j = h.nodes j) → ReachAll P h' i S)
    ?_ ?_ ?_ i S hd hagree
  · intro _
    exact .none
  · intro i S a ih hag
    exact .some i S (ih hag)
  · intro i S1 S2 hP hco hxo h1 h2 hdisj ihc ihx hag
    have hii : i ∈ insert i (S1 ∪ S2) := Finset.mem_insert_self _ _
    have hnode : h'.nodes i = h.nodes i := hag i hii
    have hco' : ReachOpt P h' (h'.nodes i).cause S1 := by
      rw [hnode]
      exact ihc fun j hj =>
        hag j (Finset.mem_insert_of_mem (Finset.mem_union_left _ hj))
    have hxo' : ReachOpt P h' (h'.nodes i).context S2 := by
      rw [hnode]
      exact ihx fun j hj =>
        hag j (Finset.mem_insert_of_mem (Finset.mem_union_right _ hj))
    exact .node i S1 S2 (hnode ▸ hP) hco' hxo' h1 h2 hdisj

theorem ReachOpt_frame (P : ExcNode → Prop) (h h' : Heap) (o : Option Nat)
    (S : Finset Nat) (hd : ReachOpt P h o S)
    (hagree : ∀ j ∈ S, h'.nodes j = h.nodes j) : ReachOpt P h' o S := by
  cases hd with
  | none => exact .none
  | some i S hall => exact .some i S (ReachAll_frame P h h' i S hall hagree)

theorem scrub_one_name (pfx scrub_message : String) (keep : Bool) (a : Attr) :
    (scrub_one pfx scrub_message keep a).name = a.name := by
  unfold scrub_one
  split
  · rfl
  · split <;> rfl

theorem scrub_attr_list_done_map (pfx scrub_message : String) (keep : Bool)
    (l : List Attr) :
    ∀ as, scrub_attr_list pfx scrub_message keep l = .done as →
      as = l.map (scrub_one pfx scrub_message keep) := by
  induction l with
  | nil => intro as h; cases h; rfl
  | cons a l ih =>
    intro as h
    simp only [scrub_attr_list] at h
    by_cases hskip : a.name = "" ∨ py_starts_with a.name "__"
    · rw [if_pos hskip] at h
      revert h
      cases hrec : scrub_attr_list pfx scrub_message keep l with
      | done as2 =>
        intro h
        cases h
        simp [scrub_one, if_pos hskip, ih as2 hrec]
      | broke as2 e nm => intro h; cases h
      | raised t => intro h; cases h
    · rw [if_neg hskip] at h
      cases hread : a.read with
      | attrError =>
        rw [hread] at h
        dsimp only at h
        revert h
        cases hrec : scrub_attr_list pfx scrub_message keep l with
        | done as2 =>
          intro h
          cases h
          simp [scrub_one, if_neg hskip, hread, ih as2 hrec]
        | broke as2 e nm => intro h; cases h
        | raised t => intro h; cases h
      | raises t =>
        rw [hread] at h
        dsimp only at h
        cases h
      | ok v =>
        rw [hread] at h
        dsimp only at h
        cases hw : a.writeErr with
        | none =>
          rw [hw] at h
          dsimp only at h
          revert h
          cases hrec : scrub_attr_list pfx scrub_message keep l with
          | done as2 =>
            intro h
            cases h
            simp [scrub_one, if_neg hskip, hread, hw, ih as2 hrec]
          | broke as2 e nm => intro h; cases h
          | raised t => intro h; cases h
        | some e =>
          rw [hw] at h
          dsimp only at h
          cases h

theorem scrub_attr_list_done_clean (pfx scrub_message : String) (keep : Bool)
    (l : List Attr) :
    ∀ as, scrub_attr_list pfx scrub_message keep l = .done as →
      ∀ a ∈ l, ¬ (a.name = "" ∨ py_starts_with a.name "__") →
        ∀ v, a.read = .ok v → a.writeErr = none := by
  induction l with
  | nil => intro as _ a ha; exact absurd ha (List.not_mem_nil a)
  | cons b l ih =>
    intro as h a ha hskip v hread
    simp only [scrub_attr_list] at h
    rcases List.mem_cons.mp ha with hab | hal
    · subst hab
      rw [if_neg hskip, hread] at h
      dsimp only at h
      cases hw : a.writeErr with
      | none => rfl
      | some e =>
        rw [hw] at h
        dsimp only at h
        cases h
    · by_cases hbskip : b.name = "" ∨ py_starts_with b.name "__"
      · rw [if_pos hbskip] at h
        revert h
        cases hrec : scrub_attr_list pfx scrub_message keep l with
        | done as2 => intro h; exact ih as2 hrec a hal hskip v hread
        | broke as2 e nm => intro h; cases h
        | raised t => intro h; cases h
      · rw [if_neg hbskip] at h
        cases hbread : b.read with
        | attrError =>
          rw [hbread] at h
          dsimp only at h
          revert h
          cases hrec : scrub_attr_list pfx scrub_message keep l with
          | done as2 => intro h; exact ih as2 hrec a hal hskip v hread
          | broke as2 e nm => intro h; cases h
          | raised t => intro h; cases h
        | raises t =>
          rw [hbread] at h
          dsimp only at h
          cases h
        | ok w =>
          rw [hbread] at h
          dsimp only at h
          cases hbw : b.writeErr with
          | none =>
            rw [hbw] at h
            dsimp only at h
            revert h
            cases hrec : scrub_attr_list pfx scrub_message keep l with
            | done as2 => intro h; exact ih as2 hrec a hal hskip v hread
            | broke as2 e nm => intro h; cases h
            | raised t => intro h; cases h
          | some e =>
            rw [hbw] at h
            dsimp only at h
            cases h

theorem scrub_attr_list_broke_attr (pfx scrub_message : String) (keep : Bool)
    (l : List Attr) :
    ∀ as e nm, scrub_attr_list pfx scrub_message keep l = .broke as e nm →
      ∃ a ∈ l, a.name = nm ∧ a.writeErr = some e := by
  induction l with
  | nil => intro as e nm h; cases h
  | cons b l ih =>
    intro as e nm h
    simp only [scrub_attr_list] at h
    by_cases hbskip : b.name = "" ∨ py_starts_with b.name "__"
    · rw [if_pos hbskip] at h
      revert h
      cases hrec : scrub_attr_list pfx scrub_message keep l with
      | done as2 => intro h; cases h
      | broke as2 e2 nm2 =>
        intro h
        cases h
        obtain ⟨a, ha, hnm, hw⟩ := ih as2 e nm hrec
        exact ⟨a, List.mem_cons_of_mem b ha, hnm, hw⟩
      | raised t => intro h; cases h
    · rw [if_neg hbskip] at h
      cases hbread : b.read with
      | attrError =>
        rw [hbread] at h
        dsimp only at h
        revert h
        cases hrec : scrub_attr_list pfx scrub_message keep l with
        | done as2 => intro h; cases h
        | broke as2 e2 nm2 =>
          intro h
          cases h
          obtain ⟨a, ha, hnm, hw⟩ := ih as2 e nm hrec
          exact ⟨a, List.mem_cons_of_mem b ha, hnm, hw⟩
        | raised t => intro h; cases h
      | raises t =>
        rw [hbread] at h
        dsimp only at h
        cases h
      | ok w =>
        rw [hbread] at h
        dsimp only at h
        cases hbw : b.writeErr with
        | none =>
          rw [hbw] at h
          dsimp only at h
          revert h
          cases hrec : scrub_attr_list pfx scrub_message keep l with
          | done as2 => intro h; cases h
          | broke as2 e2 nm2 =>
            intro h
            cases h
            obtain ⟨a, ha, hnm, hw⟩ := ih as2 e nm hrec
            exact ⟨a, List.mem_cons_of_mem b ha, hnm, hw⟩
          | raised t => intro h; cases h
        | some e2 =>
          rw [hbw] at h
          dsimp only at h
          cases h
          exact ⟨b, List.mem_cons_self b l, rfl, hbw⟩

/-- `str(PublicRuntimeError(...))` of a replacement object is exactly the
scrub-failure message built for it. -/
theorem str_of_exc_replacement (pfx errTy attrName : String) (n : ExcNode) :
    str_of_exc (replacement_node pfx errTy attrName n)
      = mk_scrub_failure_msg pfx errTy attrName n.ty := by
  rfl

/-- Sanitizing a tree-shaped error graph (no cycles, no sharing
between the cause and context chains) whose nodes all satisfy `P0` --
a property implying the node is not matched by the built-in
allow-list -- with `keep_message = false` and an empty allow-list
produces a graph all of whose nodes are fully scrubbed originals or
generic replacements (`ScrubbedNodeFrom`); objects outside the tree
and below the fresh-id counter are untouched. -/
theorem scrub_tree (scrub_message pfx : String) (P0 : ExcNode → Prop)
    (hallow : ∀ n, P0 n → is_exception_allowed n [] = false) :
    ∀ (fuel : Nat) (h : Heap) (i : Nat) (S : Finset Nat) (seen : List Nat)
      (fresh : Nat) (h' : Heap) (r' : Option Nat) (seen' : List Nat)
      (fresh' : Nat),
    ReachAll P0 h i S →
    (∀ j ∈ S, j ∉ seen) →
    (∀ j ∈ S, j < fresh) →
    scrub_exception scrub_message pfx false [] fuel h (some i) seen fresh
      = some (.ok (h', r', seen', fresh')) →
    fresh ≤ fresh' ∧
    (∀ j, j < fresh → j ∉ S → h'.nodes j = h.nodes j) ∧
    (∀ j ∈ seen', j ∈ seen ∨ j ∈ S) ∧
    ∃ r Sf, r' = some r ∧ Sf ⊆ S ∪ Finset.Ico fresh fresh' ∧
      ReachAll (ScrubbedNodeFrom scrub_message pfx P0) h' r Sf := by
  intro fuel
  induction fuel with
  | zero =>
    intro h i S seen fresh h' r' seen' fresh' _ _ _ hscrub
    exact absurd hscrub (by simp [scrub_exception])
  | succ fuel ih =>
    intro h i S seen fresh h' r' seen' fresh' hreach hseen hfresh hscrub
    cases hreach with
    | node _ S1 S2 hP hco hxo hiS1 hiS2 hdisj =>
    have hS1S : ∀ j ∈ S1, j ∈ insert i (S1 ∪ S2) := fun j hj =>
      Finset.mem_insert_of_mem (Finset.mem_union_left _ hj)
    have hS2S : ∀ j ∈ S2, j ∈ insert i (S1 ∪ S2) := fun j hj =>
      Finset.mem_insert_of_mem (Finset.mem_union_right _ hj)
    have hiS : i ∈ insert i (S1 ∪ S2) := Finset.mem_insert_self _ _
    have hiseen : i ∉ seen := hseen i hiS
    have hifresh : i < fresh := hfresh i hiS
    simp only [scrub_exception] at hscrub
    revert hscrub
    cases hstep : scrub_cause_step
        (scrub_exception scrub_message pfx false [] fuel) h i (i :: seen)
        fresh with
    | none => intro hscrub; cases hscrub
    | some res1 =>
      cases res1 with
      | error e1 => intro hscrub; cases hscrub
      | ok tup1 =>
        obtain ⟨h1, seen2, fresh1⟩ := tup1
        intro hscrub
        dsimp only at hscrub
        have hchar : fresh ≤ fresh1 ∧
            (∀ j, j < fresh → j ∉ S1 → j ≠ i → h1.nodes j = h.nodes j) ∧
            (h1.nodes i).ty = (h.nodes i).ty ∧
            (h1.nodes i).attrs = (h.nodes i).attrs ∧
            (h1.nodes i).context = (h.nodes i).context ∧
            (h1.nodes i).frames = (h.nodes i).frames ∧
            (∀ j ∈ seen2, j ∈ i :: seen ∨ j ∈ S1) ∧
            ∃ S1', S1' ⊆ S1 ∪ Finset.Ico fresh fresh1 ∧
              ReachOpt (ScrubbedNodeFrom scrub_message pfx P0) h1
                ((h1.nodes i).cause) S1' := by
          unfold scrub_cause_step at hstep
          revert hstep
          cases hc : (h.nodes i).cause with
          | none =>
            intro hstep
            rw [hc] at hco
            cases hco
            simp only [Option.some.injEq, Except.ok.injEq, Prod.mk.injEq]
              at hstep
            obtain ⟨hh1, hs2, hf1⟩ := hstep
            subst hh1 hs2 hf1
            refine ⟨le_refl _, fun j _ _ _ => rfl, rfl, rfl, rfl, rfl,
              fun j hj => Or.inl hj, ∅, Finset.empty_subset _, ?_⟩
            rw [hc]
            exact .none
          | some c =>
            rw [hc] at hco
            rcases hco with _ | ⟨_, _, hcall⟩
            have hcS1 : c ∈ S1 := ReachAll_mem P0 h c S1 hcall
            have hcnotseen : c ∉ i :: seen := by
              intro hmem
              rcases List.mem_cons.mp hmem with hci | hcs
              · exact hiS1 (hci ▸ hcS1)
              · exact hseen c (hS1S c hcS1) hcs
            dsimp only
            rw [if_neg hcnotseen]
            cases hrec : scrub_exception scrub_message pfx false [] fuel h
                (some c) (i :: seen) fresh with
            | none => intro hstep; cases hstep
            | some rr =>
              cases rr with
              | error e => intro hstep; cases hstep
              | ok tupA =>
                obtain ⟨ha, r1, seenA, freshA⟩ := tupA
                intro hstep
                dsimp only at hstep
                simp only [Option.some.injEq, Except.ok.injEq, Prod.mk.injEq]
                  at hstep
                obtain ⟨hh1, hs2, hf1⟩ := hstep
                subst hs2 hf1
                have hSeenS1 : ∀ j ∈ S1, j ∉ i :: seen := by
                  intro j hj hmem
                  rcases List.mem_cons.mp hmem with hji | hjs
                  · exact hiS1 (hji ▸ hj)
                  · exact hseen j (hS1S j hj) hjs
                obtain ⟨pfresh, ppres, pseen, rv, S1', hr1v, hS1sub, hreach1⟩ :=
                  ih h c S1 (i :: seen) fresh ha r1 seenA freshA
                    hcall hSeenS1 (fun j hj => hfresh j (hS1S j hj)) hrec
                have hhai : ha.nodes i = h.nodes i := ppres i hifresh hiS1
                subst hh1
                have hS1'ne_i : ∀ j ∈ S1', j ≠ i := by
                  intro j hj hji
                  rcases Finset.mem_union.mp (hS1sub hj) with hj1 | hj2
                  · exact hiS1 (hji ▸ hj1)
                  · exact absurd (hji ▸ (Finset.mem_Ico.mp hj2).1)
                      (Nat.not_le_of_lt hifresh)
                refine ⟨pfresh, ?_, ?_, ?_, ?_, ?_, pseen, S1', hS1sub, ?_⟩
                · intro j hjf hj1 hji
                  rw [Heap.nodes_set_ne _ _ _ _ hji]
                  exact ppres j hjf hj1
                · rw [Heap.nodes_set_self, hhai]
                · rw [Heap.nodes_set_self, hhai]
                · rw [Heap.nodes_set_self, hhai]
                · rw [Heap.nodes_set_self, hhai]
                · rw [Heap.nodes_set_self]
                  dsimp only
                  rw [hr1v]
                  refine .some rv S1' (ReachAll_frame _ ha _ rv S1' hreach1 ?_)
                  intro j hj
                  exact Heap.nodes_set_ne _ _ _ _ (hS1'ne_i j hj)
        obtain ⟨hfr1, hpres1, hty1, hattrs1, hctx1, hfrm1, hseen2sub,
          S1', hS1'sub, hco1⟩ := hchar
        revert hscrub
        cases hstep2 : scrub_context_step
            (scrub_exception scrub_message pfx false [] fuel) h1 i seen2
            fresh1 with
        | none => intro hscrub; cases hscrub
        | some res2 =>
          cases res2 with
          | error e2 => intro hscrub; cases hscrub
          | ok tup2 =>
            obtain ⟨h2, seen3, fresh2⟩ := tup2
            intro hscrub
            dsimp only at hscrub
            have hchar2 : fresh1 ≤ fresh2 ∧
                (∀ j, j < fresh1 → j ∉ S2 → j ≠ i →
                  h2.nodes j = h1.nodes j) ∧
                (h2.nodes i).ty = (h1.nodes i).ty ∧
                (h2.nodes i).attrs = (h1.nodes i).attrs ∧
                (h2.nodes i).cause = (h1.nodes i).cause ∧
                (h2.nodes i).frames = (h1.nodes i).frames ∧
                (∀ j ∈ seen3, j ∈ seen2 ∨ j ∈ S2) ∧
                ∃ S2', S2' ⊆ S2 ∪ Finset.Ico fresh1 fresh2 ∧
                  ReachOpt (ScrubbedNodeFrom scrub_message pfx P0) h2
                    ((h2.nodes i).context) S2' := by
              unfold scrub_context_step at hstep2
              revert hstep2
              cases hc2 : (h1.nodes i).context with
              | none =>
                intro hstep2
                rw [hc2] at hctx1
                rw [← hctx1] at hxo
                cases hxo
                simp only [Option.some.injEq, Except.ok.injEq, Prod.mk.injEq]
                  at hstep2
                obtain ⟨hh2, hs3, hf2⟩ := hstep2
                subst hh2 hs3 hf2
                refine ⟨le_refl _, fun j _ _ _ => rfl, rfl, rfl, rfl, rfl,
                  fun j hj => Or.inl hj, ∅, Finset.empty_subset _, ?_⟩
                rw [hc2]
                exact .none
              | some c2 =>
                rw [hc2] at hctx1
                rw [← hctx1] at hxo
                rcases hxo with _ | ⟨_, _, hxall⟩
                have hcS2 : c2 ∈ S2 := ReachAll_mem P0 h c2 S2 hxall
                have hc2notseen : c2 ∉ seen2 := by
                  intro hmem
                  rcases hseen2sub c2 hmem with hmem1 | hmem1
                  · rcases List.mem_cons.mp hmem1 with hci | hcs
                    · exact hiS2 (hci ▸ hcS2)
                    · exact hseen c2 (hS2S c2 hcS2) hcs
                  · exact (Finset.disjoint_left.mp hdisj hmem1) hcS2
                dsimp only
                rw [if_neg hc2notseen]
                have hxall1 : ReachAll P0 h1 c2 S2 := by
                  refine ReachAll_frame P0 h h1 c2 S2 hxall ?_
                  intro j hj
                  exact hpres1 j (hfresh j (hS2S j hj))
                    (Finset.disjoint_right.mp hdisj hj)
                    (fun hji => hiS2 (hji ▸ hj))
                cases hrec2 : scrub_exception scrub_message pfx false [] fuel
                    h1 (some c2) seen2 fresh1 with
                | none => intro hstep2; cases hstep2
                | some rr2 =>
                  cases rr2 with
                  | error e => intro hstep2; cases hstep2
                  | ok tupB =>
                    obtain ⟨hb, r2, seenB, freshB⟩ := tupB
                    intro hstep2
                    dsimp only at hstep2
                    simp only [Option.some.injEq, Except.ok.injEq,
                      Prod.mk.injEq] at hstep2
                    obtain ⟨hh2, hs3, hf2⟩ := hstep2
                    subst hs3 hf2
                    have hSeenS2 : ∀ j ∈ S2, j ∉ seen2 := by
                      intro j hj hmem
                      rcases hseen2sub j hmem with hmem1 | hmem1
                      · rcases List.mem_cons.mp hmem1 with hji | hjs
                        · exact hiS2 (hji ▸ hj)
                        · exact hseen j (hS2S j hj) hjs
                      · exact (Finset.disjoint_left.mp hdisj hmem1) hj
                    obtain ⟨pfresh2, ppres2, pseen2, rv2, S2', hr2v, hS2sub,
                      hreach2⟩ :=
                      ih h1 c2 S2 seen2 fresh1 hb r2 seenB freshB
                        hxall1 hSeenS2
                        (fun j hj =>
                          Nat.lt_of_lt_of_le (hfresh j (hS2S j hj)) hfr1)
                        hrec2
                    have hhbi : hb.nodes i = h1.nodes i :=
                      ppres2 i (Nat.lt_of_lt_of_le hifresh hfr1) hiS2
                    subst hh2
                    have hS2'ne_i : ∀ j ∈ S2', j ≠ i := by
                      intro j hj hji
                      rcases Finset.mem_union.mp (hS2sub hj) with hj1 | hj2
                      · exact hiS2 (hji ▸ hj1)
                      · exact absurd (hji ▸ (Finset.mem_Ico.mp hj2).1)
                          (Nat.not_le_of_lt (Nat.lt_of_lt_of_le hifresh hfr1))
                    refine ⟨pfresh2, ?_, ?_, ?_, ?_, ?_, pseen2, S2', hS2sub,
                      ?_⟩
                    · intro j hjf hj2 hji
                      rw [Heap.nodes_set_ne _ _ _ _ hji]
                      exact ppres2 j hjf hj2
                    · rw [Heap.nodes_set_self, hhbi]
                    · rw [Heap.nodes_set_self, hhbi]
                    · rw [Heap.nodes_set_self, hhbi]
                    · rw [Heap.nodes_set_self, hhbi]
                    · rw [Heap.nodes_set_self]
                      dsimp only
                      rw [hr2v]
                      refine .some rv2 S2'
                        (ReachAll_frame _ hb _ rv2 S2' hreach2 ?_)
                      intro j hj
                      exact Heap.nodes_set_ne _ _ _ _ (hS2'ne_i j hj)
            obtain ⟨hfr2, hpres2, hty2, hattrs2, hcaus2, hfrm2, hseen3sub,
              S2', hS2'sub, hxo2⟩ := hchar2
            -- shared facts about the two scrubbed sub-spans
            have hS1'lt : ∀ j ∈ S1', j < fresh1 := by
              intro j hj
              rcases Finset.mem_union.mp (hS1'sub hj) with hj1 | hj2
              · exact Nat.lt_of_lt_of_le (hfresh j (hS1S j hj1)) hfr1
              · exact (Finset.mem_Ico.mp hj2).2
            have hS1'ne_i : ∀ j ∈ S1', j ≠ i := by
              intro j hj hji
              rcases Finset.mem_union.mp (hS1'sub hj) with hj1 | hj2
              · exact hiS1 (hji ▸ hj1)
              · exact absurd (hji ▸ (Finset.mem_Ico.mp hj2).1)
                  (Nat.not_le_of_lt hifresh)
            have hS1'notS2 : ∀ j ∈ S1', j ∉ S2 := by
              intro j hj hj2
              rcases Finset.mem_union.mp (hS1'sub hj) with hj1 | hjI
              · exact (Finset.disjoint_left.mp hdisj hj1) hj2
              · exact absurd ((Finset.mem_Ico.mp hjI).1)
                  (Nat.not_le_of_lt (hfresh j (hS2S j hj2)))
            have hS2'lt : ∀ j ∈ S2', j < fresh2 := by
              intro j hj
              rcases Finset.mem_union.mp (hS2'sub hj) with hj1 | hj2
              · exact Nat.lt_of_lt_of_le (hfresh j (hS2S j hj1))
                  (Nat.le_trans hfr1 hfr2)
              · exact (Finset.mem_Ico.mp hj2).2
            have hS2'ne_i : ∀ j ∈ S2', j ≠ i := by
              intro j hj hji
              rcases Finset.mem_union.mp (hS2'sub hj) with hj1 | hj2
              · exact hiS2 (hji ▸ hj1)
              · exact absurd (hji ▸ (Finset.mem_Ico.mp hj2).1)
                  (Nat.not_le_of_lt (Nat.lt_of_lt_of_le hifresh hfr1))
            have hco2 : ReachOpt (ScrubbedNodeFrom scrub_message pfx P0) h2
                ((h2.nodes i).cause) S1' := by
              rw [hcaus2]
              refine ReachOpt_frame _ h1 h2 _ S1' hco1 ?_
              intro j hj
              exact hpres2 j (hS1'lt j hj) (hS1'notS2 j hj) (hS1'ne_i j hj)
            have hdisj12 : Disjoint S1' S2' := by
              rw [Finset.disjoint_left]
              intro j hj1 hj2
              rcases Finset.mem_union.mp (hS2'sub hj2) with hm | hm
              · exact (hS1'notS2 j hj1) hm
              · exact absurd ((Finset.mem_Ico.mp hm).1)
                  (Nat.not_le_of_lt (hS1'lt j hj1))
            have hkeep : (false ||
                is_exception_allowed (h2.nodes i) []) = false := by
              rw [Bool.false_or,
                is_exception_allowed_congr (h2.nodes i) (h.nodes i)
                  (hty2.trans hty1) (hattrs2.trans hattrs1) []]
              exact hallow _ hP
            simp only [Option.some.injEq] at hscrub
            simp only [scrub_attrs_step] at hscrub
            rw [hkeep, hattrs2.trans hattrs1] at hscrub
            revert hscrub
            cases hl : scrub_attr_list pfx scrub_message false
                ((h.nodes i).attrs) with
            | raised t => intro hscrub; cases hscrub
            | done as =>
              intro hscrub
              dsimp only at hscrub
              simp only [Except.ok.injEq, Prod.mk.injEq] at hscrub
              obtain ⟨hh3, hr3, hs4, hf3⟩ := hscrub
              subst hr3 hs4 hf3
              subst hh3
              refine ⟨Nat.le_trans hfr1 hfr2, ?_, ?_, i,
                insert i (S1' ∪ S2'), rfl, ?_, ?_⟩
              · intro j hjf hjS
                have hji : j ≠ i := fun hx => hjS (hx ▸ hiS)
                have hj1 : j ∉ S1 := fun hx => hjS (hS1S j hx)
                have hj2 : j ∉ S2 := fun hx => hjS (hS2S j hx)
                rw [Heap.nodes_set_ne _ _ _ _ hji,
                  hpres2 j (Nat.lt_of_lt_of_le hjf hfr1) hj2 hji,
                  hpres1 j hjf hj1 hji]
              · intro j hj
                rcases hseen3sub j hj with hm | hm
                · rcases hseen2sub j hm with hm1 | hm1
                  · rcases List.mem_cons.mp hm1 with hm2 | hm2
                    · exact Or.inr (hm2 ▸ hiS)
                    · exact Or.inl hm2
                  · exact Or.inr (hS1S j hm1)
                · exact Or.inr (hS2S j hm)
              · intro j hj
                rcases Finset.mem_insert.mp hj with hm | hm
                · exact Finset.mem_union_left _ (hm ▸ hiS)
                · rcases Finset.mem_union.mp hm with hm1 | hm1
                  · rcases Finset.mem_union.mp (hS1'sub hm1) with hm2 | hm2
                    · exact Finset.mem_union_left _ (hS1S j hm2)
                    · refine Finset.mem_union_right _ ?_
                      rw [Finset.mem_Ico] at hm2 ⊢
                      exact ⟨hm2.1, Nat.lt_of_lt_of_le hm2.2 hfr2⟩
                  · rcases Finset.mem_union.mp (hS2'sub hm1) with hm2 | hm2
                    · exact Finset.mem_union_left _ (hS2S j hm2)
                    · refine Finset.mem_union_right _ ?_
                      rw [Finset.mem_Ico] at hm2 ⊢
                      exact ⟨Nat.le_trans hfr1 hm2.1, hm2.2⟩
              · refine ReachAll.node i S1' S2' ?_ ?_ ?_
                  (fun hx => (hS1'ne_i i hx) rfl)
                  (fun hx => (hS2'ne_i i hx) rfl) hdisj12
                · rw [Heap.nodes_set_self]
                  refine Or.inl ⟨h.nodes i, hP, ?_, ?_, ?_⟩
                  · dsimp only
                    exact hty2.trans hty1
                  · dsimp only
                    exact hfrm2.trans hfrm1
                  · dsimp only
                    exact hl
                · rw [Heap.nodes_set_self]
                  dsimp only
                  refine ReachOpt_frame _ h2 _ _ S1' hco2 ?_
                  intro j hj
                  exact Heap.nodes_set_ne _ _ _ _ (hS1'ne_i j hj)
                · rw [Heap.nodes_set_self]
                  dsimp only
                  refine ReachOpt_frame _ h2 _ _ S2' hxo2 ?_
                  intro j hj
                  exact Heap.nodes_set_ne _ _ _ _ (hS2'ne_i j hj)
            | broke as e nm =>
              intro hscrub
              dsimp only at hscrub
              simp only [Except.ok.injEq, Prod.mk.injEq] at hscrub
              obtain ⟨hh3, hr3, hs4, hf3⟩ := hscrub
              subst hr3 hs4 hf3
              subst hh3
              have hfr02 : fresh ≤ fresh2 := Nat.le_trans hfr1 hfr2
              have hS1'nef : ∀ j ∈ S1', j ≠ fresh2 := by
                intro j hj hx
                have hlt : j < fresh2 :=
                  Nat.lt_of_lt_of_le (hS1'lt j hj) hfr2
                rw [hx] at hlt
                exact Nat.lt_irrefl fresh2 hlt
              have hS2'nef : ∀ j ∈ S2', j ≠ fresh2 := by
                intro j hj hx
                have hlt : j < fresh2 := hS2'lt j hj
                rw [hx] at hlt
                exact Nat.lt_irrefl fresh2 hlt
              refine ⟨Nat.le_trans hfr02 (Nat.le_succ fresh2), ?_, ?_, fresh2,
                insert fresh2 (S1' ∪ S2'), rfl, ?_, ?_⟩
              · intro j hjf hjS
                have hji : j ≠ i := fun hx => hjS (hx ▸ hiS)
                have hj1 : j ∉ S1 := fun hx => hjS (hS1S j hx)
                have hj2 : j ∉ S2 := fun hx => hjS (hS2S j hx)
                have hjnef : j ≠ fresh2 := by
                  intro hx
                  have hlt : j < fresh2 := Nat.lt_of_lt_of_le hjf hfr02
                  rw [hx] at hlt
                  exact Nat.lt_irrefl fresh2 hlt
                rw [Heap.nodes_set_ne _ _ _ _ hjnef,
                  Heap.nodes_set_ne _ _ _ _ hji,
                  hpres2 j (Nat.lt_of_lt_of_le hjf hfr1) hj2 hji,
                  hpres1 j hjf hj1 hji]
              · intro j hj
                rcases hseen3sub j hj with hm | hm
                · rcases hseen2sub j hm with hm1 | hm1
                  · rcases List.mem_cons.mp hm1 with hm2 | hm2
                    · exact Or.inr (hm2 ▸ hiS)
                    · exact Or.inl hm2
                  · exact Or.inr (hS1S j hm1)
                · exact Or.inr (hS2S j hm)
              · intro j hj
                rcases Finset.mem_insert.mp hj with hm | hm
                · refine Finset.mem_union_right _ ?_
                  rw [Finset.mem_Ico]
                  exact ⟨hm ▸ hfr02, hm ▸ Nat.lt_succ_self fresh2⟩
                · rcases Finset.mem_union.mp hm with hm1 | hm1
                  · rcases Finset.mem_union.mp (hS1'sub hm1) with hm2 | hm2
                    · exact Finset.mem_union_left _ (hS1S j hm2)
                    · refine Finset.mem_union_right _ ?_
                      rw [Finset.mem_Ico] at hm2 ⊢
                      refine ⟨hm2.1, ?_⟩
                      exact Nat.lt_of_lt_of_le hm2.2
                        (Nat.le_trans hfr2 (Nat.le_succ fresh2))
                  · rcases Finset.mem_union.mp (hS2'sub hm1) with hm2 | hm2
                    · exact Finset.mem_union_left _ (hS2S j hm2)
                    · refine Finset.mem_union_right _ ?_
                      rw [Finset.mem_Ico] at hm2 ⊢
                      exact ⟨Nat.le_trans hfr1 hm2.1,
                        Nat.lt_of_lt_of_le hm2.2 (Nat.le_succ fresh2)⟩
              · refine ReachAll.node fresh2 S1' S2' ?_ ?_ ?_
                  (fun hx => (hS1'nef fresh2 hx) rfl)
                  (fun hx => (hS2'nef fresh2 hx) rfl) hdisj12
                · rw [Heap.nodes_set_self]
                  refine Or.inr ⟨h.nodes i, e, nm, hP, ?_, rfl, rfl, ?_⟩
                  · exact scrub_attr_list_broke_attr pfx scrub_message false
                      ((h.nodes i).attrs) as e nm hl
                  · rw [str_of_exc_replacement]
                    exact congrArg (mk_scrub_failure_msg pfx e nm)
                      (hty2.trans hty1)
                · rw [Heap.nodes_set_self]
                  show ReachOpt _ _ ((h2.nodes i).cause) S1'
                  refine ReachOpt_frame _ h2 _ _ S1' hco2 ?_
                  intro j hj
                  rw [Heap.nodes_set_ne _ _ _ _ (hS1'nef j hj)]
                  exact Heap.nodes_set_ne _ _ _ _ (hS1'ne_i j hj)
                · rw [Heap.nodes_set_self]
                  show ReachOpt _ _ ((h2.nodes i).context) S2'
                  refine ReachOpt_frame _ h2 _ _ S2' hxo2 ?_
                  intro j hj
                  rw [Heap.nodes_set_ne _ _ _ _ (hS2'nef j hj)]
                  exact Heap.nodes_set_ne _ _ _ _ (hS2'ne_i j hj)

/-- `str(e)` depends only on the `args` attribute list. -/
theorem str_of_exc_eq_of_attrs (n n2 : ExcNode) (h : n.attrs = n2.attrs) :
    str_of_exc n = str_of_exc n2 := by
  unfold str_of_exc lookup_attr_value
  rw [h]

/-- A node whose attribute loop completed with `keep = false` and whose
`args` was a readable tuple of at most one string renders either the
empty message or exactly `prefix + scrub_message`. -/
theorem scrubbed_msg (pfx scrub_message : String) (no nf : ExcNode)
    (hshape : args_shape_ok no = true)
    (hdone : scrub_attr_list pfx scrub_message false no.attrs
      = .done nf.attrs) :
    str_of_exc nf = "" ∨ str_of_exc nf = pfx ++ scrub_message := by
  have hmap := scrub_attr_list_done_map pfx scrub_message false no.attrs
    nf.attrs hdone
  unfold str_of_exc lookup_attr_value
  rw [hmap]
  have hpred : ((fun a => a.name == "args")
        ∘ (scrub_one pfx scrub_message false))
      = fun a => a.name == "args" := by
    funext a
    show ((scrub_one pfx scrub_message false a).name == "args") = _
    rw [scrub_one_name]
  rw [List.find?_map, hpred]
  cases hf : no.attrs.find? fun a => a.name == "args" with
  | none => exact Or.inl rfl
  | some a =>
    have hmem : a ∈ no.attrs := List.mem_of_find?_eq_some hf
    have hname : a.name = "args" := by
      have hb := List.find?_some hf
      exact beq_iff_eq.mp hb
    have hskip : ¬ (a.name = "" ∨ py_starts_with a.name "__") := by
      rw [hname]
      decide
    have hshapea := List.all_eq_true.mp hshape a hmem
    rw [if_pos hname] at hshapea
    split at hshapea
    · rename_i heq
      have hwe : a.writeErr = none :=
        scrub_attr_list_done_clean pfx scrub_message false no.attrs nf.attrs
          hdone a hmem hskip _ heq
      have hsone : scrub_one pfx scrub_message false a
          = { a with read := .ok (_attribute_transformer pfx scrub_message
              false (.vcoll .pytuple [])) } := by
        unfold scrub_one
        rw [if_neg hskip, heq, hwe]
      rw [Option.map_some', hsone]
      exact Or.inl rfl
    · rename_i s heq
      have hwe : a.writeErr = none :=
        scrub_attr_list_done_clean pfx scrub_message false no.attrs nf.attrs
          hdone a hmem hskip _ heq
      have hsone : scrub_one pfx scrub_message false a
          = { a with read := .ok (_attribute_transformer pfx scrub_message
              false (.vcoll .pytuple [.vstr s])) } := by
        unfold scrub_one
        rw [if_neg hskip, heq, hwe]
      rw [Option.map_some', hsone]
      right
      dsimp only [_attribute_transformer, _attribute_transformer_list]
      rw [if_neg (by decide : ¬ (false = true))]
      rfl
    · rename_i hne1 hne2
      exact absurd hshapea Bool.false_ne_true

/-- Unfolding of `chunks_safe` into the per-line property. -/
theorem chunks_safe_iff (m : String) (cs : List Chunk) :
    chunks_safe m cs = true ↔
      ∀ c ∈ cs, ∀ l ∈ chunk_lines c, contains_sub m l = false := by
  unfold chunks_safe
  simp only [List.all_eq_true, Bool.not_eq_true']

/-- Every chunk rendered by `TracebackException.format` over a
tree-shaped graph whose nodes all satisfy `P` is either a fixed chunk
or carries data (type name, message, stack lines) of a node satisfying
`P`. -/
theorem traceback_format_from (P : ExcNode → Prop) :
    ∀ (fuel : Nat) (h : Heap) (i : Nat) (S : Finset Nat) (seen : List Nat)
      (chunks : List Chunk) (seen2 : List Nat),
    ReachAll P h i S →
    traceback_format fuel h i seen = some (chunks, seen2) →
    ∀ ch ∈ chunks, ChunkFrom P ch := by
  intro fuel
  induction fuel with
  | zero =>
    intro h i S seen chunks seen2 _ hfmt
    exact absurd hfmt (by simp [traceback_format])
  | succ fuel ih =>
    intro h i S seen chunks seen2 hreach hfmt
    cases hreach with
    | node _ S1 S2 hP hco hxo _ _ _ =>
    have htb : ∀ ch ∈ ((if (h.nodes i).frames.isEmpty then ([] : List Chunk)
        else [Chunk.header]) ++ (h.nodes i).frames.map Chunk.frame)
          ++ [Chunk.excLine (h.nodes i).ty (str_of_exc (h.nodes i))],
        ChunkFrom P ch := by
      intro ch hch
      rcases List.mem_append.mp hch with hm | hm
      · rcases List.mem_append.mp hm with hm1 | hm1
        · split at hm1
          · exact absurd hm1 (List.not_mem_nil ch)
          · rw [List.mem_singleton] at hm1
            subst hm1
            exact trivial
        · rcases List.mem_map.mp hm1 with ⟨ls, hls, hch1⟩
          subst hch1
          exact ⟨h.nodes i, hP, hls⟩
      · rw [List.mem_singleton] at hm
        subst hm
        exact ⟨h.nodes i, hP, rfl, rfl⟩
    simp only [traceback_format] at hfmt
    revert hfmt
    cases hc : (h.nodes i).cause with
    | some c =>
      rw [hc] at hco
      rcases hco with _ | ⟨_, _, hcall⟩
      dsimp only
      by_cases hcs : c ∈ i :: seen
      · rw [if_pos hcs]
        -- cause chain cut by the private seen set: no cause chunks
        cases hx : (h.nodes i).context with
        | some c2 =>
          rw [hx] at hxo
          rcases hxo with _ | ⟨_, _, hxall⟩
          dsimp only
          by_cases hxs : c2 ∈ i :: seen
          · rw [if_pos hxs]
            intro hfmt
            dsimp only at hfmt
            simp only [Option.some.injEq, Prod.mk.injEq] at hfmt
            obtain ⟨hchunks, _⟩ := hfmt
            subst hchunks
            intro ch hch
            exact htb ch (by simpa using hch)
          · rw [if_neg hxs]
            cases hrx : traceback_format fuel h c2 (i :: seen) with
            | none => intro hfmt; cases hfmt
            | some prx =>
              obtain ⟨xs, seenX⟩ := prx
              intro hfmt
              dsimp only at hfmt
              simp only [Option.some.injEq, Prod.mk.injEq] at hfmt
              obtain ⟨hchunks, _⟩ := hfmt
              subst hchunks
              intro ch hch
              rcases List.mem_append.mp hch with hm | hm
              · split at hm
                · exact absurd hm (List.not_mem_nil ch)
                · rcases List.mem_append.mp hm with hm1 | hm1
                  · exact ih h c2 S2 (i :: seen) xs seenX hxall hrx ch hm1
                  · rw [List.mem_singleton] at hm1
                    subst hm1
                    exact trivial
              · exact htb ch hm
        | none =>
          dsimp only
          intro hfmt
          simp only [Option.some.injEq, Prod.mk.injEq] at hfmt
          obtain ⟨hchunks, _⟩ := hfmt
          subst hchunks
          intro ch hch
          exact htb ch (by simpa using hch)
      · rw [if_neg hcs]
        cases hrc : traceback_format fuel h c (i :: seen) with
        | none => intro hfmt; cases hfmt
        | some prc =>
          obtain ⟨cs, seenC⟩ := prc
          dsimp only
          have hcsafe : ∀ ch ∈ cs, ChunkFrom P ch :=
            ih h c S1 (i :: seen) cs seenC hcall hrc
          have hchain : ∀ ch ∈ (cs ++ [Chunk.causeMsg]), ChunkFrom P ch := by
            intro ch hch
            rcases List.mem_append.mp hch with hm | hm
            · exact hcsafe ch hm
            · rw [List.mem_singleton] at hm
              subst hm
              exact trivial
          cases hx : (h.nodes i).context with
          | some c2 =>
            dsimp only
            by_cases hxs : c2 ∈ seenC
            · rw [if_pos hxs]
              intro hfmt
              dsimp only at hfmt
              simp only [Option.some.injEq, Prod.mk.injEq] at hfmt
              obtain ⟨hchunks, _⟩ := hfmt
              subst hchunks
              intro ch hch
              rcases List.mem_append.mp hch with hm | hm
              · exact hchain ch hm
              · exact htb ch hm
            · rw [if_neg hxs]
              rw [hx] at hxo
              rcases hxo with _ | ⟨_, _, hxall⟩
              cases hrx : traceback_format fuel h c2 seenC with
              | none => intro hfmt; cases hfmt
              | some prx =>
                obtain ⟨xs, seenX⟩ := prx
                intro hfmt
                dsimp only at hfmt
                simp only [Option.some.injEq, Prod.mk.injEq] at hfmt
                obtain ⟨hchunks, _⟩ := hfmt
                subst hchunks
                intro ch hch
                rcases List.mem_append.mp hch with hm | hm
                · exact hchain ch hm
                · exact htb ch hm
          | none =>
            dsimp only
            intro hfmt
            simp only [Option.some.injEq, Prod.mk.injEq] at hfmt
            obtain ⟨hchunks, _⟩ := hfmt
            subst hchunks
            intro ch hch
            rcases List.mem_append.mp hch with hm | hm
            · exact hchain ch hm
            · exact htb ch hm
    | none =>
      dsimp only
      cases hx : (h.nodes i).context with
      | some c2 =>
        rw [hx] at hxo
        rcases hxo with _ | ⟨_, _, hxall⟩
        dsimp only
        by_cases hxs : c2 ∈ i :: seen
        · rw [if_pos hxs]
          intro hfmt
          dsimp only at hfmt
          simp only [Option.some.injEq, Prod.mk.injEq] at hfmt
          obtain ⟨hchunks, _⟩ := hfmt
          subst hchunks
          intro ch hch
          exact htb ch (by simpa using hch)
        · rw [if_neg hxs]
          cases hrx : traceback_format fuel h c2 (i :: seen) with
          | none => intro hfmt; cases hfmt
          | some prx =>
            obtain ⟨xs, seenX⟩ := prx
            intro hfmt
            dsimp only at hfmt
            simp only [Option.some.injEq, Prod.mk.injEq] at hfmt
            obtain ⟨hchunks, _⟩ := hfmt
            subst hchunks
            intro ch hch
            rcases List.mem_append.mp hch with hm | hm
            · split at hm
              · exact absurd hm (List.not_mem_nil ch)
              · rcases List.mem_append.mp hm with hm1 | hm1
                · exact ih h c2 S2 (i :: seen) xs seenX hxall hrx ch hm1
                · rw [List.mem_singleton] at hm1
                  subst hm1
                  exact trivial
            · exact htb ch hm
      | none =>
        dsimp only
        intro hfmt
        simp only [Option.some.injEq, Prod.mk.injEq] at hfmt
        obtain ⟨hchunks, _⟩ := hfmt
        subst hchunks
        intro ch hch
        exact htb ch (by simpa using hch)

/-- A chunk whose data comes from a scrubbed-or-replaced node of a
`C5NodeOK` graph has no line containing the secret `m`, provided `m`
also occurs in none of the renderer's fixed strings. -/
theorem scrubbed_chunk_safe (m scrub_message pfx : String)
    (hfix1 : contains_sub m "Traceback (most recent call last):" = false)
    (hfix2 : contains_sub m
      "The above exception was the direct cause of the following exception:"
      = false)
    (hfix3 : contains_sub m
      "During handling of the above exception, another exception occurred:"
      = false)
    (hfix4 : contains_sub m "" = false)
    (hfix5 : contains_sub m "PublicRuntimeError" = false)
    (ch : Chunk)
    (hch : ChunkFrom (ScrubbedNodeFrom scrub_message pfx
      (C5NodeOK m pfx scrub_message)) ch) :
    ∀ l ∈ chunk_lines ch, contains_sub m l = false := by
  cases ch with
  | header =>
    intro l hl
    dsimp only [chunk_lines] at hl
    rw [List.mem_singleton] at hl
    subst hl
    exact hfix1
  | causeMsg =>
    intro l hl
    simp only [chunk_lines, List.mem_cons, List.mem_singleton,
      List.not_mem_nil, or_false] at hl
    rcases hl with h1 | h1 | h1 <;> subst h1
    · exact hfix4
    · exact hfix2
    · exact hfix4
  | contextMsg =>
    intro l hl
    simp only [chunk_lines, List.mem_cons, List.mem_singleton,
      List.not_mem_nil, or_false] at hl
    rcases hl with h1 | h1 | h1 <;> subst h1
    · exact hfix4
    · exact hfix3
    · exact hfix4
  | frame ls =>
    obtain ⟨n, hn, hlsmem⟩ := hch
    intro l hl
    rcases hn with ⟨no, hP0, _, hfr, _⟩ | ⟨no, e, nm, _, _, _, hfrP, _⟩
    · rw [hfr] at hlsmem
      exact hP0.2.2.2.2.1 ls hlsmem l hl
    · rw [hfrP] at hlsmem
      exact absurd hlsmem (List.not_mem_nil ls)
  | excLine ty msg =>
    obtain ⟨n, hn, hty, hmsg⟩ := hch
    intro l hl
    dsimp only [chunk_lines] at hl
    rw [List.mem_singleton] at hl
    subst hl
    rcases hn with ⟨no, hP0, htyo, _, hdone⟩ |
      ⟨no, e, nm, hP0, ⟨a, ha, haname, hawe⟩, htyP, _, hstr⟩
    · have hcases := scrubbed_msg pfx scrub_message no n hP0.2.1 hdone
      rw [hmsg] at hcases
      by_cases hmz : msg = ""
      · rw [if_pos hmz, ← hty, htyo]
        exact hP0.2.2.1
      · rw [if_neg hmz]
        rcases hcases with hm0 | hm0
        · exact absurd hm0 hmz
        · rw [hm0, ← hty, htyo]
          exact hP0.2.2.2.1
    · have hmsg2 : msg = mk_scrub_failure_msg pfx e nm no.ty :=
        hmsg.symm.trans hstr
      by_cases hmz : msg = ""
      · rw [if_pos hmz, ← hty, htyP]
        exact hfix5
      · rw [if_neg hmz, hmsg2, ← hty, htyP]
        have hw := hP0.2.2.2.2.2 a ha e hawe
        rw [haname] at hw
        exact hw

/-- C5: for an exception graph sanitized with `keep_message = false` and
an empty allow-list and then rendered, no output line contains the
secret string `m` -- provided the graph is tree-shaped, none of its
nodes matches the built-in allow-list, each node's `args` is a readable
tuple of at most one string, and `m` occurs neither in the graph's type
names, stack lines and potential scrub-failure lines nor in the
renderer's fixed strings.  (Without the built-in-allow-list and
tree-shape provisos the claim is false; see the counterexample.) -/
theorem scrub_render_no_message_leak (m scrub_message pfx : String)
    (h : Heap) (root fuel fresh : Nat) (S : Finset Nat)
    (hreach : ReachAll (C5NodeOK m pfx scrub_message) h root S)
    (hfresh : ∀ j ∈ S, j < fresh)
    (hfix1 : contains_sub m "Traceback (most recent call last):" = false)
    (hfix2 : contains_sub m
      "The above exception was the direct cause of the following exception:"
      = false)
    (hfix3 : contains_sub m
      "During handling of the above exception, another exception occurred:"
      = false)
    (hfix4 : contains_sub m "" = false)
    (hfix5 : contains_sub m "PublicRuntimeError" = false) :
    chunks_safe m
      (scrub_then_render scrub_message pfx false [] fuel h root fresh)
      = true := by
  unfold scrub_then_render
  rw [chunks_safe_iff]
  cases hs : scrub_exception scrub_message pfx false [] fuel h (some root)
      [] fresh with
  | none =>
    intro c hc
    exact absurd hc (List.not_mem_nil c)
  | some res =>
    cases res with
    | error e =>
      intro c hc
      exact absurd hc (List.not_mem_nil c)
    | ok tup =>
      obtain ⟨h1, ropt, seenf, freshf⟩ := tup
      cases ropt with
      | none =>
        dsimp only
        intro c hc
        exact absurd hc (List.not_mem_nil c)
      | some r =>
        dsimp only
        obtain ⟨_, _, _, r2, Sf, hr2, _, hreach2⟩ :=
          scrub_tree scrub_message pfx (C5NodeOK m pfx scrub_message)
            (fun n hn => hn.1) fuel h root S [] fresh h1 (some r) seenf
            freshf hreach (fun j _ => List.not_mem_nil j) hfresh hs
        have hrr : r = r2 := Option.some.inj hr2
        cases hf : traceback_format fuel h1 r [] with
        | none =>
          intro c hc
          exact absurd hc (List.not_mem_nil c)
        | some pr =>
          obtain ⟨chunks, seenT⟩ := pr
          dsimp only
          intro c hc
          have hcf := traceback_format_from
            (ScrubbedNodeFrom scrub_message pfx (C5NodeOK m pfx scrub_message))
            fuel h1 r Sf [] chunks seenT (by rw [hrr]; exact hreach2) hf c hc
          exact scrubbed_chunk_safe m scrub_message pfx hfix1 hfix2 hfix3
            hfix4 hfix5 c hcf

/-- Witness for C5: a two-node `raise ... from ...` chain whose
messages and a read-only attribute all carry the secret `"pw"`; after
scrubbing, no rendered line contains `"pw"`. -/
theorem scrub_render_no_message_leak_witness :
    chunks_safe "pw" (scrub_then_render SCRUB_MESSAGE PFX_DEFAULT false []
      4 chainHeap 0 2) = true := by
  have hreach : ReachAll (C5NodeOK "pw" PFX_DEFAULT SCRUB_MESSAGE) chainHeap
      0 (insert 0 (insert 1 (∅ ∪ ∅) ∪ ∅)) := by
    refine ReachAll.node 0 (insert 1 (∅ ∪ ∅)) ∅ ?_ ?_ ?_ (by decide)
      (Finset.not_mem_empty 0) (Finset.disjoint_empty_right _)
    · refine ⟨by decide, by decide, by decide, by decide, by decide, ?_⟩
      intro a ha e he
      have ha2 := List.mem_singleton.mp ha
      subst ha2
      injection he
    · refine ReachOpt.some 1 _ ?_
      refine ReachAll.node 1 ∅ ∅ ?_ ReachOpt.none ReachOpt.none
        (Finset.not_mem_empty 1) (Finset.not_mem_empty 1)
        (Finset.disjoint_empty_right _)
      refine ⟨by decide, by decide, by decide, by decide, by decide, ?_⟩
      intro a ha e he
      rcases List.mem_cons.mp ha with ha2 | ha2
      · subst ha2
        have he2 := Option.some.inj he
        subst he2
        decide
      · have ha3 := List.mem_singleton.mp ha2
        subst ha3
        injection he
    · exact ReachOpt.none
  exact scrub_render_no_message_leak "pw" SCRUB_MESSAGE PFX_DEFAULT
    chainHeap 0 4 2 _ hreach (by decide) (by decide) (by decide) (by decide)
    (by decide) (by decide)

/-- C5 counterexample: a `PublicValueError` carrying a private message
is matched by the built-in allow-list even though the caller passed an
empty allow-list and `keep_message = false`, so the original message
text (`"secret data"`, merely prefixed) survives scrubbing and appears
verbatim in the rendered output. -/
theorem scrub_render_public_type_leak_counterexample :
    chunks_safe "secret data" (scrub_then_render SCRUB_MESSAGE PFX_DEFAULT
      false [] 4 pveHeap 0 1) = false := by
  decide

end Shrike
